import Mathlib

/-!
# UMFPACK arena, forward solve and postorder utilities

A shallow embedding of six routines of `UMFPACK/Source`:

* `umf_lsolve.c`               (`UMF_lsolve`)
* `umf_mem_alloc_head_block.c` (`UMF_mem_alloc_head_block`)
* `umf_apply_order.c`          (`UMF_apply_order`)
* `umf_realloc.c`              (`UMF_realloc`)
* `umfpack_save_numeric.c`     (`UMFPACK_save_numeric`)
* `umfpack_triplet_to_col.c`   (`UMFPACK_triplet_to_col`, real version)

Conventions of the embedding.

* The production configuration is embedded: `NDEBUG` is defined and
  `UMF_TCOV_TEST` is not, so `ASSERT`, `DEBUG*` and the test-only failure
  injection expand to nothing.
* A C array `T a[]` is a total map `Int → T`; `a[i] = v` is `setAt a i v`.  The
  map has no length: an index the C program may not touch is simply a point of
  the map that the theorems say nothing about.
* The signed type `Int` of UMFPACK is Lean's `Int`.  Signed overflow is undefined
  in C, so the embedding describes the executions in which it does not occur.
  The unsigned `size_t` arithmetic of `UMF_realloc` wraps, and is embedded with
  an explicit reduction modulo `SIZE_MAX + 1`.
* `Entry` is an arbitrary commutative ring `K` with decidable equality (exact
  arithmetic); `IS_NONZERO (x)` is `x ≠ 0` and `MULT_SUB (c, a, b)` is
  `c := c - a * b`.
* `Numeric->Memory` is an array of `Unit`; the code reads it through casts.
  `MemoryInt p j` is `((Int *) (Numeric->Memory + p)) [j]` and `MemoryEntry p j`
  is `((Entry *) (Numeric->Memory + p)) [j]`.
* The macros `UNITS (Int, n)`, `MULTSUB_FLOPS` and `Int_MAX`, and the largest
  `size_t` value `SIZE_MAX`, are declared in headers that are not part of the
  sources at hand; they are parameters.
* A `for (k = lo ; k < hi ; k++)` loop whose body changes neither `k` nor `hi`
  is `forLoop lo hi body`.
* What a routine calls and is not among the sources is a parameter: the
  reallocation primitive, `UMF_valid_numeric`, `UMF_malloc`, `UMF_free`, the
  conversion routines of `umf_triplet.h`, and the outcome of `fopen` and
  `fwrite`.  A routine with effects returns, next to its C return value, the
  state it leaves and the list of the external calls it made.
-/

namespace UMFPACK

/-! ## Common definitions -/

/-- The sentinel `EMPTY` of `umf_internal.h`, which is `(-1)`. -/
def EMPTY : Int := -1

/-- The array `a` after the assignment `a [i] = v`. -/
def setAt {α : Type} (a : Int → α) (i : Int) (v : α) : Int → α :=
  fun j => if j = i then v else a j

/-- The loop `for (k = lo ; k < hi ; k++) body`, as a state transformer. -/
def forLoop {σ : Type} (lo hi : Int) (body : Int → σ → σ) (s : σ) : σ :=
  (List.range (hi - lo).toNat).foldl (fun (st : σ) (m : Nat) => body (lo + (m : Int)) st) s

/-- The fields of `NumericType` that the embedded routines read or write. -/
structure NumericType (K : Type) where
  n_row : Int
  n_col : Int
  npiv : Int
  n1 : Int
  lnz : Int
  Lpos : Int → Int
  Lilen : Int → Int
  Lip : Int → Int
  size : Int
  ihead : Int
  itail : Int
  tail_usage : Int
  max_usage : Int
  scale : Int
  ulen : Int
  MemoryInt : Int → Int → Int
  MemoryEntry : Int → Int → K

/-! ## `UMF_lsolve` -/

/-- What `UMF_lsolve` leaves behind: the returned flop count and the two arrays
it writes. -/
structure LsolveResult (K : Type) where
  flops : Int
  X : Int → K
  Pattern : Int → Int

/-- One iteration of the singleton loop (lines 54-71): column `k` is stored in
full at `Lip [k]`. -/
def singletonStep {K : Type} [CommRing K] [DecidableEq K] (UNITS_Int : Int → Int)
    (Numeric : NumericType K) (k : Int) (X : Int → K) : Int → K :=
  let xk := X k
  let deg := Numeric.Lilen k
  if 0 < deg ∧ xk ≠ 0 then
    let lp := Numeric.Lip k
    let lp2 := lp + UNITS_Int deg
    forLoop 0 deg
      (fun j Y => setAt Y (Numeric.MemoryInt lp j)
        (Y (Numeric.MemoryInt lp j) - xk * Numeric.MemoryEntry lp2 j)) X
  else X

/-- The value of `lp` after lines 87-94: the offset of column `k`, with the
chain-start sign flag removed. -/
def chainOffset {K : Type} (Numeric : NumericType K) (k : Int) : Int :=
  if Numeric.Lip k < 0 then - Numeric.Lip k else Numeric.Lip k

/-- Lines 87-118 of the chain loop: make column `k` of L in
`Pattern [0..deg-1]`.  The state is the pair `(Pattern, deg)`. -/
def chainPattern {K : Type} (Numeric : NumericType K) (k : Int)
    (s : (Int → Int) × Int) : (Int → Int) × Int :=
  let lp := chainOffset Numeric k
  let deg := if Numeric.Lip k < 0 then 0 else s.2
  let pos := Numeric.Lpos k
  let s1 : (Int → Int) × Int :=
    if pos ≠ EMPTY then (setAt s.1 pos (s.1 (deg - 1)), deg - 1) else (s.1, deg)
  forLoop 0 (Numeric.Lilen k)
    (fun j t => (setAt t.1 t.2 (Numeric.MemoryInt lp j), t.2 + 1)) s1

/-- Lines 124-137 of the chain loop: use column `k` of L, whose pattern is
`Pattern [0..deg-1]` and whose values start at `lp + UNITS (Int, llen)`. -/
def chainUse {K : Type} [CommRing K] [DecidableEq K] (UNITS_Int : Int → Int)
    (Numeric : NumericType K) (k : Int) (Pattern : Int → Int) (deg : Int)
    (X : Int → K) : Int → K :=
  let xk := X k
  if xk ≠ 0 then
    let xp := chainOffset Numeric k + UNITS_Int (Numeric.Lilen k)
    forLoop 0 deg
      (fun j Y => setAt Y (Pattern j) (Y (Pattern j) - xk * Numeric.MemoryEntry xp j)) X
  else X

/-- The variables that live across iterations of the chain loop. -/
structure ChainState (K : Type) where
  X : Int → K
  Pattern : Int → Int
  deg : Int

/-- One iteration of the chain loop (lines 81-138). -/
def chainStep {K : Type} [CommRing K] [DecidableEq K] (UNITS_Int : Int → Int)
    (Numeric : NumericType K) (k : Int) (s : ChainState K) : ChainState K :=
  let p := chainPattern Numeric k (s.Pattern, s.deg)
  { X := chainUse UNITS_Int Numeric k p.1 p.2 s.X, Pattern := p.1, deg := p.2 }

/-- The routine `UMF_lsolve`: solve `Lx = b`, overwriting `X`. -/
def UMF_lsolve {K : Type} [CommRing K] [DecidableEq K] (UNITS_Int : Int → Int)
    (MULTSUB_FLOPS : Int) (Numeric : NumericType K) (X : Int → K)
    (Pattern : Int → Int) : LsolveResult K :=
  if Numeric.n_row ≠ Numeric.n_col then
    { flops := 0, X := X, Pattern := Pattern }
  else
    let X1 := forLoop 0 Numeric.n1 (singletonStep UNITS_Int Numeric) X
    let s := forLoop Numeric.n1 Numeric.npiv (chainStep UNITS_Int Numeric)
      { X := X1, Pattern := Pattern, deg := 0 }
    { flops := MULTSUB_FLOPS * Numeric.lnz, X := s.X, Pattern := s.Pattern }

/-! ### The matrix that the store encodes -/

/-- The `(row, value)` pairs of column `k` of L as the store encodes them: the
explicit pairs of a singleton column, the accumulated pattern of a chain column
paired with the values stored after its indices, and nothing from `npiv` on.
`Pattern0` is the content of the pattern workspace when the solve starts. -/
def Lcolumn {K : Type} (UNITS_Int : Int → Int) (Numeric : NumericType K)
    (Pattern0 : Int → Int) (k : Int) : List (Int × K) :=
  if 0 ≤ k ∧ k < Numeric.n1 then
    (List.range (Numeric.Lilen k).toNat).map (fun (j : Nat) =>
      (Numeric.MemoryInt (Numeric.Lip k) (j : Int),
       Numeric.MemoryEntry (Numeric.Lip k + UNITS_Int (Numeric.Lilen k)) (j : Int)))
  else if Numeric.n1 ≤ k ∧ k < Numeric.npiv then
    let p := forLoop Numeric.n1 (k + 1) (chainPattern Numeric) (Pattern0, 0)
    (List.range p.2.toNat).map (fun (j : Nat) =>
      (p.1 (j : Int),
       Numeric.MemoryEntry (chainOffset Numeric k + UNITS_Int (Numeric.Lilen k)) (j : Int)))
  else []

/-- The sum of the values that a list of `(row, value)` pairs holds for row `i`. -/
def colCoef {K : Type} [CommRing K] (col : List (Int × K)) (i : Int) : K :=
  (col.map (fun e => if e.1 = i then e.2 else 0)).sum

/-- Entry `(i, k)` of the unit lower-triangular matrix L: one on the diagonal,
plus what column `k` stores for row `i`. -/
def Lentry {K : Type} [CommRing K] (UNITS_Int : Int → Int) (Numeric : NumericType K)
    (Pattern0 : Int → Int) (i k : Int) : K :=
  (if i = k then 1 else 0) + colCoef (Lcolumn UNITS_Int Numeric Pattern0 k) i

/-- Row `i` of the product `L * x`, for the `n`-by-`n` matrix L. -/
def Lmul {K : Type} [CommRing K] (UNITS_Int : Int → Int) (Numeric : NumericType K)
    (Pattern0 : Int → Int) (n : Int) (x : Int → K) (i : Int) : K :=
  ((List.range n.toNat).map (fun (k : Nat) =>
    Lentry UNITS_Int Numeric Pattern0 i (k : Int) * x (k : Int))).sum

/-- One step of forward substitution with the column coefficients `c`: subtract
`X [k]` times column `k` from `X`. -/
def eliminate {K : Type} [CommRing K] (c : Int → Int → K) (k : Int) (X : Int → K) :
    Int → K :=
  fun i => X i - X k * c k i

/-! ## `UMF_mem_alloc_head_block` -/

/-- The routine `UMF_mem_alloc_head_block`: the returned offset and the
`Numeric` object after the call. -/
def UMF_mem_alloc_head_block {K : Type} (Numeric : NumericType K) (nunits : Int) :
    Int × NumericType K :=
  if nunits > Numeric.itail - Numeric.ihead then
    (0, Numeric)
  else
    let p := Numeric.ihead
    let ihead := Numeric.ihead + nunits
    let usage := ihead + Numeric.tail_usage
    (p, { Numeric with ihead := ihead, max_usage := max Numeric.max_usage usage })

/-- The offsets returned by a sequence of calls of `UMF_mem_alloc_head_block`
with the given sizes, and the `Numeric` object after the last one. -/
def allocSeq {K : Type} (Numeric : NumericType K) : List Int → List Int × NumericType K
  | [] => ([], Numeric)
  | n :: ns =>
    let r := UMF_mem_alloc_head_block Numeric n
    let rest := allocSeq r.2 ns
    (r.1 :: rest.1, rest.2)

/-- Every call of the sequence takes the success branch (lines 46-53). -/
def allocSucceeds {K : Type} (Numeric : NumericType K) : List Int → Bool
  | [] => true
  | n :: ns =>
    decide (n ≤ Numeric.itail - Numeric.ihead) &&
      allocSucceeds (UMF_mem_alloc_head_block Numeric n).2 ns

/-! ## `UMF_apply_order` -/

/-- The routine `UMF_apply_order`: the arrays `Front` and `Temp` after the
call. -/
def UMF_apply_order (Front Order Temp : Int → Int) (nn nfr : Int) :
    (Int → Int) × (Int → Int) :=
  let Temp1 := forLoop 0 nn
    (fun i T => if Order i ≠ EMPTY then setAt T (Order i) (Front i) else T) Temp
  let Front1 := forLoop 0 nfr (fun k F => setAt F k (Temp1 k)) Front
  (Front1, Temp1)

/-! ## `UMF_realloc` -/

/-- A buffer handle; `NULL` is `0`. -/
abbrev Ptr := Nat

/-- The null handle. -/
def NULL : Ptr := 0

/-- What a call of `UMF_realloc` leaves behind: the returned handle, the state
of the allocator behind `realloc_func`, and the calls of `realloc_func` that
were made, each with its two arguments. -/
structure ReallocResult (W : Type) where
  ret : Ptr
  world : W
  calls : List (Ptr × Nat)

/-- The routine `UMF_realloc`.  `realloc_func` is
`SuiteSparse_config.realloc_func`, acting on an allocator state of type `W`;
`size_t` values are reduced modulo `SIZE_MAX + 1`.  The counter
`UMF_malloc_count`, compiled only with `UMF_MALLOC_COUNT` or without `NDEBUG`,
is left out. -/
def UMF_realloc {W : Type} (Int_MAX SIZE_MAX : Nat)
    (realloc_func : Ptr → Nat → W → Ptr × W)
    (p : Ptr) (n_objects : Int) (size_of_object : Nat) (w : W) : ReallocResult W :=
  let n_objects := max 1 n_objects
  let size := n_objects.toNat % (SIZE_MAX + 1)
  if size > (Int_MAX % (SIZE_MAX + 1)) / size_of_object then
    { ret := NULL, world := w, calls := [] }
  else
    let size := (size * size_of_object) % (SIZE_MAX + 1)
    let r := realloc_func p size w
    { ret := r.1, world := r.2, calls := [(p, size)] }

/-- The heap behind the reallocation primitive: the bytes of each live block. -/
abbrev Heap := Ptr → Option (List Nat)

/-- The contract of the byte-level reallocation primitive: on failure it
returns `NULL` and the old block is intact; on success the returned block has
the requested size and starts with the old contents. -/
def ReallocContract (realloc_func : Ptr → Nat → Heap → Ptr × Heap) : Prop :=
  ∀ (p : Ptr) (size : Nat) (h : Heap) (old : List Nat), h p = some old →
    ((realloc_func p size h).1 = NULL → (realloc_func p size h).2 p = some old) ∧
    ((realloc_func p size h).1 ≠ NULL →
      ∃ new, (realloc_func p size h).2 (realloc_func p size h).1 = some new ∧
        new.length = size ∧ new.take old.length = old.take size)

/-! ### The solve without the zero test -/

/-- The singleton iteration of the variant of `UMF_lsolve` that never tests
`xk` for zero: the updates `X [Li [j]] -= xk * Lval [j]` are always made. -/
def singletonStep_noskip {K : Type} [CommRing K] (UNITS_Int : Int → Int)
    (Numeric : NumericType K) (k : Int) (X : Int → K) : Int → K :=
  let xk := X k
  let deg := Numeric.Lilen k
  let lp := Numeric.Lip k
  let lp2 := lp + UNITS_Int deg
  forLoop 0 deg
    (fun j Y => setAt Y (Numeric.MemoryInt lp j)
      (Y (Numeric.MemoryInt lp j) - xk * Numeric.MemoryEntry lp2 j)) X

/-- The use of a chain column in the variant that never tests `xk` for zero. -/
def chainUse_noskip {K : Type} [CommRing K] (UNITS_Int : Int → Int)
    (Numeric : NumericType K) (k : Int) (Pattern : Int → Int) (deg : Int)
    (X : Int → K) : Int → K :=
  let xk := X k
  let xp := chainOffset Numeric k + UNITS_Int (Numeric.Lilen k)
  forLoop 0 deg
    (fun j Y => setAt Y (Pattern j) (Y (Pattern j) - xk * Numeric.MemoryEntry xp j)) X

/-- The chain iteration of the variant that never tests `xk` for zero. -/
def chainStep_noskip {K : Type} [CommRing K] (UNITS_Int : Int → Int)
    (Numeric : NumericType K) (k : Int) (s : ChainState K) : ChainState K :=
  let p := chainPattern Numeric k (s.Pattern, s.deg)
  { X := chainUse_noskip UNITS_Int Numeric k p.1 p.2 s.X, Pattern := p.1, deg := p.2 }

/-- The variant of `UMF_lsolve` that never tests `xk` for zero and always
performs the updates, in the singleton phase and in the chain phase. -/
def UMF_lsolve_noskip {K : Type} [CommRing K] (UNITS_Int : Int → Int)
    (MULTSUB_FLOPS : Int) (Numeric : NumericType K) (X : Int → K)
    (Pattern : Int → Int) : LsolveResult K :=
  if Numeric.n_row ≠ Numeric.n_col then
    { flops := 0, X := X, Pattern := Pattern }
  else
    let X1 := forLoop 0 Numeric.n1 (singletonStep_noskip UNITS_Int Numeric) X
    let s := forLoop Numeric.n1 Numeric.npiv (chainStep_noskip UNITS_Int Numeric)
      { X := X1, Pattern := Pattern, deg := 0 }
    { flops := MULTSUB_FLOPS * Numeric.lnz, X := s.X, Pattern := s.Pattern }

/-! ### The pattern of a chain column -/

/-- The entries `Pattern [0 .. deg-1]`, in order. -/
def patList (Pattern : Int → Int) (deg : Int) : List Int :=
  (List.range deg.toNat).map (fun (j : Nat) => Pattern (j : Int))

/-- The `Lilen [k]` row indices that column `k` stores at its offset. -/
def storedIndices {K : Type} (Numeric : NumericType K) (k : Int) : List Int :=
  (List.range (Numeric.Lilen k).toNat).map
    (fun (j : Nat) => Numeric.MemoryInt (chainOffset Numeric k) (j : Int))

/-- The value of `deg` when the chain loop reaches the removal step of column
`k` (line 97), in a solve that starts with the workspace `Pattern0`. -/
def removalDeg {K : Type} (Numeric : NumericType K) (Pattern0 : Int → Int) (k : Int) : Int :=
  if Numeric.Lip k < 0 then 0
  else (forLoop Numeric.n1 k (chainPattern Numeric) (Pattern0, 0)).2

/-- Modelled from the spec: the macro `MULTSUB_FLOPS` is defined in a header
that is not among the sources; the spec counts two floating-point operations,
one multiply and one subtract, per stored nonzero. -/
def MULTSUB_FLOPS : Int := 2

/-! ## `UMFPACK_save_numeric` -/

/-- The status codes of `umfpack.h` that `UMFPACK_save_numeric` and
`UMFPACK_triplet_to_col` return. -/
inductive Status
  | UMFPACK_OK
  | UMFPACK_ERROR_out_of_memory
  | UMFPACK_ERROR_invalid_Numeric_object
  | UMFPACK_ERROR_argument_missing
  | UMFPACK_ERROR_n_nonpositive
  | UMFPACK_ERROR_invalid_matrix
  | UMFPACK_ERROR_file_IO
  deriving DecidableEq

open Status

/-- The element types that appear as the `type` argument of `WRITE`. -/
inductive CType
  | NumericType
  | Entry
  | Int
  | double
  | Unit
  deriving DecidableEq

/-- The objects that `UMFPACK_save_numeric` passes to `WRITE`: the `Numeric`
header itself and the arrays it points to. -/
inductive SavedObject
  | Numeric
  | D
  | Rperm
  | Cperm
  | Lpos
  | Lilen
  | Lip
  | Upos
  | Uilen
  | Uip
  | Rs
  | Upattern
  | Memory
  deriving DecidableEq

/-- The calls of the C library that `UMFPACK_save_numeric` makes on the file. -/
inductive FileOp
  | fopen (filename : String) (mode : String)
  | fwrite (object : SavedObject) (type : CType) (n : Int)
  | fflush
  | fclose
  deriving DecidableEq

/-- The behaviour of the C library: `fopen_ok name` says that
`fopen (name, "wb")` returns a stream, and `fwrite_ok object type n` says that
the `fwrite` of `n` items of `object` returns `(size_t) n`. -/
structure FileEnv where
  fopen_ok : String → Bool
  fwrite_ok : SavedObject → CType → Int → Bool

/-- What a call of `UMFPACK_save_numeric` leaves behind: the returned status and
the calls made on the file, in order. -/
structure SaveResult where
  status : Status
  ops : List FileOp

/-- The macro `WRITE (object, type, n)`: on a short write it closes the file and
makes the routine return `UMFPACK_ERROR_file_IO`; otherwise it flushes and the
routine goes on.  `ops` holds the calls made so far. -/
def WRITE (env : FileEnv) (object : SavedObject) (type : CType) (n : Int)
    (ops : List FileOp) : Except SaveResult (List FileOp) :=
  if env.fwrite_ok object type n then
    Except.ok (ops ++ [FileOp.fwrite object type n, FileOp.fflush])
  else
    Except.error
      { status := UMFPACK_ERROR_file_IO,
        ops := ops ++ [FileOp.fwrite object type n, FileOp.fclose] }

/-- The file name that `UMFPACK_save_numeric` opens (lines 52-60): the user's,
or the default name when `user_filename` is null (`none`). -/
def saveFilename (user_filename : Option String) : String :=
  match user_filename with
  | none => "numeric.umf"
  | some name => name

/-- The routine `UMFPACK_save_numeric`.  `UMF_valid_numeric` and the constant
`UMFPACK_SCALE_NONE` are not among the sources and are parameters; a null
`user_filename` is `none`. -/
def UMFPACK_save_numeric {K : Type} (UMF_valid_numeric : NumericType K → Bool)
    (UMFPACK_SCALE_NONE : Int) (env : FileEnv) (Numeric : NumericType K)
    (user_filename : Option String) : SaveResult :=
  if !UMF_valid_numeric Numeric then
    { status := UMFPACK_ERROR_invalid_Numeric_object, ops := [] }
  else
    let filename := saveFilename user_filename
    if !env.fopen_ok filename then
      { status := UMFPACK_ERROR_file_IO, ops := [FileOp.fopen filename "wb"] }
    else
      let written : Except SaveResult (List FileOp) := do
        let ops ← WRITE env SavedObject.Numeric CType.NumericType 1
          [FileOp.fopen filename "wb"]
        let ops ← WRITE env SavedObject.D CType.Entry
          (min Numeric.n_row Numeric.n_col + 1) ops
        let ops ← WRITE env SavedObject.Rperm CType.Int (Numeric.n_row + 1) ops
        let ops ← WRITE env SavedObject.Cperm CType.Int (Numeric.n_col + 1) ops
        let ops ← WRITE env SavedObject.Lpos CType.Int (Numeric.npiv + 1) ops
        let ops ← WRITE env SavedObject.Lilen CType.Int (Numeric.npiv + 1) ops
        let ops ← WRITE env SavedObject.Lip CType.Int (Numeric.npiv + 1) ops
        let ops ← WRITE env SavedObject.Upos CType.Int (Numeric.npiv + 1) ops
        let ops ← WRITE env SavedObject.Uilen CType.Int (Numeric.npiv + 1) ops
        let ops ← WRITE env SavedObject.Uip CType.Int (Numeric.npiv + 1) ops
        let ops ←
          if Numeric.scale ≠ UMFPACK_SCALE_NONE then
            WRITE env SavedObject.Rs CType.double Numeric.n_row ops
          else pure ops
        let ops ←
          if Numeric.ulen > 0 then
            WRITE env SavedObject.Upattern CType.Int (Numeric.ulen + 1) ops
          else pure ops
        WRITE env SavedObject.Memory CType.Unit Numeric.size ops
      match written with
      | Except.ok ops => { status := UMFPACK_OK, ops := ops ++ [FileOp.fclose] }
      | Except.error r => r

/-- The `(object, type, n)` of the `fwrite` calls among `ops`, in order. -/
def writtenRecords : List FileOp → List (SavedObject × CType × Int)
  | [] => []
  | FileOp.fwrite object type n :: rest => (object, type, n) :: writtenRecords rest
  | FileOp.fopen _ _ :: rest => writtenRecords rest
  | FileOp.fflush :: rest => writtenRecords rest
  | FileOp.fclose :: rest => writtenRecords rest

/-! ## `UMFPACK_triplet_to_col` -/

/-- The arrays that `UMFPACK_triplet_to_col` may write; a null pointer is
`none`.  `V` is the type of the numerical values (`double`). -/
structure TripletArrays (V : Type) where
  Ap : Option (Int → Int)
  Ai : Option (Int → Int)
  Ax : Option (Int → V)
  Map : Option (Int → Int)

/-- What `UMFPACK_triplet_to_col` calls and is not among the sources:
`UMF_malloc` and `UMF_free`, acting on an allocator state of type `W`, the four
conversion routines of `umf_triplet.h`, each taking `n_row`, `n_col`, `nz`,
`Ti`, `Tj`, for the `_x` routines `Tx`, and the output arrays, and returning a
status and the output arrays, and the sizes of `Int` and `double`. -/
structure TripletEnv (W V : Type) where
  sizeof_Int : Nat
  sizeof_double : Nat
  UMF_malloc : Int → Nat → W → Ptr × W
  UMF_free : Ptr → W → W
  UMF_triplet_map_x : Int → Int → Int → (Int → Int) → (Int → Int) → (Int → V) →
    TripletArrays V → Status × TripletArrays V
  UMF_triplet_map_nox : Int → Int → Int → (Int → Int) → (Int → Int) →
    TripletArrays V → Status × TripletArrays V
  UMF_triplet_nomap_x : Int → Int → Int → (Int → Int) → (Int → Int) → (Int → V) →
    TripletArrays V → Status × TripletArrays V
  UMF_triplet_nomap_nox : Int → Int → Int → (Int → Int) → (Int → Int) →
    TripletArrays V → Status × TripletArrays V

/-- What a call of `UMFPACK_triplet_to_col` leaves behind: the returned status,
the output arrays, the allocator state, and the calls of `UMF_malloc` that were
made, each with its two arguments. -/
structure TripletResult (W V : Type) where
  status : Status
  arrays : TripletArrays V
  world : W
  mallocs : List (Int × Nat)

/-- The routine `UMFPACK_triplet_to_col`, real version (`COMPLEX` undefined). -/
def UMFPACK_triplet_to_col {W V : Type} (env : TripletEnv W V) (n_row n_col nz : Int)
    (Ti Tj : Option (Int → Int)) (Tx : Option (Int → V)) (A : TripletArrays V) (w : W) :
    TripletResult W V :=
  match A.Ai, A.Ap, Ti, Tj with
  | some _, some _, some ti, some tj =>
    if n_row ≤ 0 ∨ n_col ≤ 0 then
      { status := UMFPACK_ERROR_n_nonpositive, arrays := A, world := w, mallocs := [] }
    else if nz < 0 then
      { status := UMFPACK_ERROR_invalid_matrix, arrays := A, world := w, mallocs := [] }
    else
      let nn := max n_row n_col
      let do_values := A.Ax.isSome && Tx.isSome
      let rx : Ptr × W :=
        if do_values then env.UMF_malloc (nz + 1) env.sizeof_double w else (NULL, w)
      let m1 : List (Int × Nat) := if do_values then [(nz + 1, env.sizeof_double)] else []
      if do_values && decide (rx.1 = NULL) then
        { status := UMFPACK_ERROR_out_of_memory, arrays := A, world := rx.2, mallocs := m1 }
      else
        let do_map := A.Map.isSome
        let map2 : Ptr × W :=
          if do_map then env.UMF_malloc (nz + 1) env.sizeof_Int rx.2 else (NULL, rx.2)
        let m2 : List (Int × Nat) :=
          if do_map then m1 ++ [(nz + 1, env.sizeof_Int)] else m1
        if do_map && decide (map2.1 = NULL) then
          { status := UMFPACK_ERROR_out_of_memory, arrays := A,
            world := env.UMF_free rx.1 map2.2, mallocs := m2 }
        else
          let rj := env.UMF_malloc (nz + 1) env.sizeof_Int map2.2
          let rp := env.UMF_malloc (n_row + 1) env.sizeof_Int rj.2
          let rowCount := env.UMF_malloc n_row env.sizeof_Int rp.2
          let wk := env.UMF_malloc nn env.sizeof_Int rowCount.2
          let m3 : List (Int × Nat) :=
            m2 ++ [(nz + 1, env.sizeof_Int), (n_row + 1, env.sizeof_Int),
              (n_row, env.sizeof_Int), (nn, env.sizeof_Int)]
          let freed : W :=
            env.UMF_free wk.1 (env.UMF_free rowCount.1 (env.UMF_free rj.1
              (env.UMF_free rp.1 (env.UMF_free map2.1 (env.UMF_free rx.1 wk.2)))))
          if rj.1 = NULL ∨ rp.1 = NULL ∨ rowCount.1 = NULL ∨ wk.1 = NULL then
            { status := UMFPACK_ERROR_out_of_memory, arrays := A, world := freed,
              mallocs := m3 }
          else
            let r : Status × TripletArrays V :=
              match do_map, A.Ax, Tx with
              | true, some _, some tx => env.UMF_triplet_map_x n_row n_col nz ti tj tx A
              | true, _, _ => env.UMF_triplet_map_nox n_row n_col nz ti tj A
              | false, some _, some tx => env.UMF_triplet_nomap_x n_row n_col nz ti tj tx A
              | false, _, _ => env.UMF_triplet_nomap_nox n_row n_col nz ti tj A
            { status := r.1, arrays := r.2, world := freed, mallocs := m3 }
  | _, _, _, _ =>
    { status := UMFPACK_ERROR_argument_missing, arrays := A, world := w, mallocs := [] }

/-! ## Concrete inputs -/

/-- A `Numeric` object over the rationals with the given arena cursors and
usage counters, and nothing stored. -/
def arena (size ihead itail tail_usage max_usage : Int) : NumericType ℚ :=
  { n_row := 0, n_col := 0, npiv := 0, n1 := 0, lnz := 0,
    Lpos := fun _ => EMPTY, Lilen := fun _ => 0, Lip := fun _ => 0,
    size := size, ihead := ihead, itail := itail,
    tail_usage := tail_usage, max_usage := max_usage, scale := 0, ulen := 0,
    MemoryInt := fun _ _ => 0, MemoryEntry := fun _ _ => 0 }

/-- The array whose entries `0 .. l.length - 1` are those of `l`, and `d`
everywhere else. -/
def ofList {α : Type} (l : List α) (d : α) : Int → α :=
  fun i => if 0 ≤ i then l.getD i.toNat d else d

/-- A reallocation primitive over `Heap`: it refuses the null handle, a handle
without a live block and any request above `limit` bytes, and otherwise resizes
the block where it is, padding with zero bytes. -/
def growInPlace (limit : Nat) (p : Ptr) (size : Nat) (h : Heap) : Ptr × Heap :=
  if p = NULL ∨ limit < size then (NULL, h)
  else
    match h p with
    | none => (NULL, h)
    | some old =>
      (p, fun q => if q = p then some (old.take size ++ List.replicate (size - old.length) 0)
        else h q)

/-- The 3-by-3 store of the solve scenario, laid out for a 4-byte `Int` in an
8-byte `Unit`: singleton column 0 at offset 1 holds (row 2, value 2), column 1
starts a chain at offset 3 and holds (row 2, value 3), column 2 continues the
chain at offset 5, removes its pivot row from position 0 and stores nothing. -/
def store3 : NumericType ℚ :=
  { n_row := 3, n_col := 3, npiv := 3, n1 := 1, lnz := 2,
    Lpos := ofList [EMPTY, EMPTY, 0] EMPTY,
    Lilen := ofList [1, 1, 0] 0,
    Lip := ofList [1, -3, 5] 0,
    size := 8, ihead := 5, itail := 6, tail_usage := 2, max_usage := 7,
    scale := 0, ulen := 0,
    MemoryInt := fun p j => if (p = 1 ∨ p = 3) ∧ j = 0 then 2 else 0,
    MemoryEntry := fun p j => if p = 2 ∧ j = 0 then 2 else if p = 4 ∧ j = 0 then 3 else 0 }

/-- The macro `UNITS (Int, n)` for a 4-byte `Int` in an 8-byte `Unit`: the
number of units that hold `n` indices. -/
def units4 (n : Int) : Int := (n + 1) / 2

/-- A heap with one live block, of four bytes, at handle `1`. -/
def heap1 : Heap := fun q => if q = 1 then some [7, 8, 9, 10] else none

/-- A store whose column 7 continues a chain: it removes position 1 of the
inherited pattern and stores the single row index 11 at offset 20. -/
def store7 : NumericType ℚ :=
  { n_row := 12, n_col := 12, npiv := 8, n1 := 0, lnz := 0,
    Lpos := fun _ => 1, Lilen := fun _ => 1, Lip := fun _ => 20,
    size := 100, ihead := 30, itail := 98, tail_usage := 2, max_usage := 32,
    scale := 0, ulen := 0,
    MemoryInt := fun _ _ => 11, MemoryEntry := fun _ _ => 0 }

/-- A C library in which every file opens and every write completes. -/
def fileAllOk : FileEnv :=
  { fopen_ok := fun _ => true, fwrite_ok := fun _ _ _ => true }

/-- A stand-in for `UMF_valid_numeric`: it accepts the objects with a positive
number of rows. -/
def validRows (Numeric : NumericType ℚ) : Bool := decide (0 < Numeric.n_row)

/-- An environment for `UMFPACK_triplet_to_col` over an allocator state that
counts the live blocks: every `UMF_malloc` succeeds, and the conversion
routines report `UMFPACK_OK` and leave the arrays alone. -/
def tripletEnvOk : TripletEnv Nat ℚ :=
  { sizeof_Int := 4, sizeof_double := 8,
    UMF_malloc := fun _ _ w => (w + 1, w + 1),
    UMF_free := fun _ w => w - 1,
    UMF_triplet_map_x := fun _ _ _ _ _ _ A => (UMFPACK_OK, A),
    UMF_triplet_map_nox := fun _ _ _ _ _ A => (UMFPACK_OK, A),
    UMF_triplet_nomap_x := fun _ _ _ _ _ _ A => (UMFPACK_OK, A),
    UMF_triplet_nomap_nox := fun _ _ _ _ _ A => (UMFPACK_OK, A) }

/-- Output arrays with `Ap` and `Ai` present and `Ax` and `Map` null. -/
def arrays2 : TripletArrays ℚ :=
  { Ap := some (fun _ => 0), Ai := some (fun _ => 0), Ax := none, Map := none }

/-! ## Theorems about `UMF_mem_alloc_head_block` -/

/-- C4: when `0 ≤ nunits ≤ itail - ihead`, the call returns the old `ihead`,
advances `ihead` by `nunits` and leaves `itail` alone. -/
theorem alloc_head_success {K : Type} (Numeric : NumericType K) (nunits : Int)
    (_h0 : 0 ≤ nunits) (h : nunits ≤ Numeric.itail - Numeric.ihead) :
    (UMF_mem_alloc_head_block Numeric nunits).1 = Numeric.ihead ∧
    (UMF_mem_alloc_head_block Numeric nunits).2.ihead = Numeric.ihead + nunits ∧
    (UMF_mem_alloc_head_block Numeric nunits).2.itail = Numeric.itail := by
  have hn : ¬ nunits > Numeric.itail - Numeric.ihead := by omega
  simp [UMF_mem_alloc_head_block, hn]

theorem alloc_head_success_witness :
    (UMF_mem_alloc_head_block (arena 100 1 98 2 3) 5).1 = 1 ∧
    (UMF_mem_alloc_head_block (arena 100 1 98 2 3) 5).2.ihead = 1 + 5 ∧
    (UMF_mem_alloc_head_block (arena 100 1 98 2 3) 5).2.itail = 98 :=
  alloc_head_success (arena 100 1 98 2 3) 5 (by decide) (by decide)

/-- C5: when `nunits > itail - ihead`, the call returns `0` and changes
nothing: `ihead`, `itail`, `tail_usage` and `max_usage` keep their values (the
whole object does). -/
theorem alloc_head_failure {K : Type} (Numeric : NumericType K) (nunits : Int)
    (h : nunits > Numeric.itail - Numeric.ihead) :
    (UMF_mem_alloc_head_block Numeric nunits).1 = 0 ∧
    (UMF_mem_alloc_head_block Numeric nunits).2.ihead = Numeric.ihead ∧
    (UMF_mem_alloc_head_block Numeric nunits).2.itail = Numeric.itail ∧
    (UMF_mem_alloc_head_block Numeric nunits).2.tail_usage = Numeric.tail_usage ∧
    (UMF_mem_alloc_head_block Numeric nunits).2.max_usage = Numeric.max_usage ∧
    (UMF_mem_alloc_head_block Numeric nunits).2 = Numeric := by
  simp [UMF_mem_alloc_head_block, h]

theorem alloc_head_failure_witness :
    (UMF_mem_alloc_head_block (arena 100 1 98 2 3) 98).1 = 0 ∧
    (UMF_mem_alloc_head_block (arena 100 1 98 2 3) 98).2.ihead = 1 ∧
    (UMF_mem_alloc_head_block (arena 100 1 98 2 3) 98).2.itail = 98 ∧
    (UMF_mem_alloc_head_block (arena 100 1 98 2 3) 98).2.tail_usage = 2 ∧
    (UMF_mem_alloc_head_block (arena 100 1 98 2 3) 98).2.max_usage = 3 ∧
    (UMF_mem_alloc_head_block (arena 100 1 98 2 3) 98).2 = arena 100 1 98 2 3 :=
  alloc_head_failure (arena 100 1 98 2 3) 98 (by decide)

/-- A successful call returns the old head cursor and moves it by the size. -/
theorem alloc_head_step {K : Type} (Numeric : NumericType K) (n : Int)
    (h : n ≤ Numeric.itail - Numeric.ihead) :
    (UMF_mem_alloc_head_block Numeric n).1 = Numeric.ihead ∧
    (UMF_mem_alloc_head_block Numeric n).2.ihead = Numeric.ihead + n := by
  have hn : ¬ n > Numeric.itail - Numeric.ihead := by omega
  simp [UMF_mem_alloc_head_block, hn]

/-- Every offset of a successful sequence is at or after the head cursor the
sequence started from. -/
theorem allocSeq_ge {K : Type} (sizes : List Int) :
    ∀ (Numeric : NumericType K), (∀ n ∈ sizes, 0 ≤ n) →
      allocSucceeds Numeric sizes = true →
      ∀ q ∈ (allocSeq Numeric sizes).1, Numeric.ihead ≤ q := by
  induction sizes with
  | nil => intro Numeric _ _ q hq; simp [allocSeq] at hq
  | cons n ns ih =>
    intro Numeric hpos hs q hq
    simp only [allocSucceeds, Bool.and_eq_true, decide_eq_true_eq] at hs
    obtain ⟨h1, h2⟩ := alloc_head_step Numeric n hs.1
    simp only [allocSeq, List.mem_cons] at hq
    rcases hq with hq | hq
    · rw [hq, h1]
    · have := ih _ (fun m hm => hpos m (List.mem_cons_of_mem _ hm)) hs.2 q hq
      have hn := hpos n (List.mem_cons_self _ _)
      omega

/-- C6 (amended): in a sequence of successful calls with sizes `n_i ≥ 0` the
returned offsets never decrease, and increase strictly when every size is
positive; the range of a call ends at or before the offset of every later call,
so the ranges do not overlap; and the final head cursor is the initial head
cursor plus the sum of the sizes. -/
theorem alloc_head_sequence {K : Type} (sizes : List Int) :
    ∀ (Numeric : NumericType K), (∀ n ∈ sizes, 0 ≤ n) →
      allocSucceeds Numeric sizes = true →
      List.Pairwise (fun p q => p ≤ q) (allocSeq Numeric sizes).1 ∧
      ((∀ n ∈ sizes, 0 < n) → List.Pairwise (fun p q => p < q) (allocSeq Numeric sizes).1) ∧
      List.Pairwise (fun a b => a.1 + a.2 ≤ b.1) (List.zip (allocSeq Numeric sizes).1 sizes) ∧
      (allocSeq Numeric sizes).2.ihead = Numeric.ihead + sizes.sum := by
  induction sizes with
  | nil => intro Numeric _ _; simp [allocSeq]
  | cons n ns ih =>
    intro Numeric hpos hs
    have hs0 := hs
    simp only [allocSucceeds, Bool.and_eq_true, decide_eq_true_eq] at hs
    obtain ⟨h1, h2⟩ := alloc_head_step Numeric n hs.1
    have hpos2 : ∀ m ∈ ns, 0 ≤ m := fun m hm => hpos m (List.mem_cons_of_mem _ hm)
    have hn := hpos n (List.mem_cons_self _ _)
    obtain ⟨i1, i2, i3, i4⟩ := ih _ hpos2 hs.2
    have hge := allocSeq_ge ns _ hpos2 hs.2
    refine ⟨?_, ?_, ?_, ?_⟩
    · simp only [allocSeq, List.pairwise_cons]
      refine ⟨fun q hq => ?_, i1⟩
      have := hge q hq
      omega
    · intro hlt
      simp only [allocSeq, List.pairwise_cons]
      refine ⟨fun q hq => ?_, i2 (fun m hm => hlt m (List.mem_cons_of_mem _ hm))⟩
      have := hge q hq
      have := hlt n (List.mem_cons_self _ _)
      omega
    · simp only [allocSeq, List.zip_cons_cons, List.pairwise_cons]
      refine ⟨fun e he => ?_, i3⟩
      have := hge e.1 (List.of_mem_zip he).1
      omega
    · simp only [allocSeq, List.sum_cons]
      rw [i4, h2]
      ring

theorem alloc_head_sequence_witness :
    List.Pairwise (fun p q => p ≤ q) (allocSeq (arena 100 1 98 2 3) [3, 0, 4]).1 ∧
    ((∀ n ∈ [3, 0, 4], (0 : Int) < n) →
      List.Pairwise (fun p q => p < q) (allocSeq (arena 100 1 98 2 3) [3, 0, 4]).1) ∧
    List.Pairwise (fun a b => a.1 + a.2 ≤ b.1)
      (List.zip (allocSeq (arena 100 1 98 2 3) [3, 0, 4]).1 [3, 0, 4]) ∧
    (allocSeq (arena 100 1 98 2 3) [3, 0, 4]).2.ihead
      = (arena 100 1 98 2 3).ihead + ([3, 0, 4] : List Int).sum :=
  alloc_head_sequence [3, 0, 4] (arena 100 1 98 2 3) (by decide) (by decide)

/-- C6 (as stated) fails: from the head cursor `1`, two successful calls of size
`0` both return offset `1`, so the offsets are not strictly increasing, and the
sum of the sizes, `0`, is not the final head cursor, `1`. -/
theorem alloc_head_sequence_counterexample :
    (∀ n ∈ ([0, 0] : List Int), 0 ≤ n) ∧
    allocSucceeds (arena 100 1 98 2 3) [0, 0] = true ∧
    (allocSeq (arena 100 1 98 2 3) [0, 0]).1 = [1, 1] ∧
    ¬ List.Pairwise (fun p q => p < q) (allocSeq (arena 100 1 98 2 3) [0, 0]).1 ∧
    ([0, 0] : List Int).sum ≠ (allocSeq (arena 100 1 98 2 3) [0, 0]).2.ihead := by
  refine ⟨by decide, by decide, by decide, by decide, by decide⟩

/-- C7 (amended): the call returns `0` exactly when the request failed or the
head cursor was `0` before the call; with a head cursor other than `0` the
return value `0` identifies failure. -/
theorem alloc_head_zero_iff {K : Type} (Numeric : NumericType K) (nunits : Int) :
    ((UMF_mem_alloc_head_block Numeric nunits).1 = 0 ↔
      (nunits > Numeric.itail - Numeric.ihead ∨ Numeric.ihead = 0)) ∧
    (Numeric.ihead ≠ 0 →
      ((UMF_mem_alloc_head_block Numeric nunits).1 = 0 ↔
        nunits > Numeric.itail - Numeric.ihead)) := by
  by_cases h : nunits > Numeric.itail - Numeric.ihead
  · simp [UMF_mem_alloc_head_block, h]
  · simp [UMF_mem_alloc_head_block, h]

/-- C7 (as stated) fails: with `ihead = 0`, `itail = 98` and `nunits = 5` the
request succeeds (the head cursor moves to `5`) and the call returns `0`. -/
theorem alloc_head_zero_counterexample :
    (arena 100 0 98 2 3).ihead ≤ (arena 100 0 98 2 3).itail ∧ (0 : Int) ≤ 5 ∧
    ¬ ((5 : Int) > (arena 100 0 98 2 3).itail - (arena 100 0 98 2 3).ihead) ∧
    (UMF_mem_alloc_head_block (arena 100 0 98 2 3) 5).2.ihead = 5 ∧
    (UMF_mem_alloc_head_block (arena 100 0 98 2 3) 5).1 = 0 := by
  refine ⟨by decide, by decide, by decide, by decide, by decide⟩

/-! ## Loops -/

/-- A loop over an empty range does nothing. -/
theorem forLoop_empty {σ : Type} (lo hi : Int) (body : Int → σ → σ) (s : σ)
    (h : hi ≤ lo) : forLoop lo hi body s = s := by
  have : (hi - lo).toNat = 0 := by omega
  simp [forLoop, this]

/-- Unrolling the last iteration of a loop. -/
theorem forLoop_succ {σ : Type} (lo hi : Int) (body : Int → σ → σ) (s : σ)
    (h : lo ≤ hi) : forLoop lo (hi + 1) body s = body hi (forLoop lo hi body s) := by
  have h1 : (hi + 1 - lo).toNat = (hi - lo).toNat + 1 := by omega
  have h2 : lo + (((hi - lo).toNat : Nat) : Int) = hi := by omega
  unfold forLoop
  rw [h1, List.range_succ, List.foldl_append, List.foldl_cons, List.foldl_nil, h2]

/-- Loop invariants: what holds before the loop and is kept by every iteration
holds after it. -/
theorem forLoop_invariant {σ : Type} (P : Int → σ → Prop) (lo hi : Int)
    (body : Int → σ → σ) (s : σ) (hle : lo ≤ hi) (h0 : P lo s)
    (hstep : ∀ k st, lo ≤ k → k < hi → P k st → P (k + 1) (body k st)) :
    P hi (forLoop lo hi body s) := by
  obtain ⟨n, rfl⟩ : ∃ n : Nat, hi = lo + (n : Int) := ⟨(hi - lo).toNat, by omega⟩
  clear hle
  induction n with
  | zero => simpa [forLoop_empty] using h0
  | succ n ih =>
    have e : lo + ((n + 1 : Nat) : Int) = (lo + (n : Int)) + 1 := by push_cast; ring
    rw [e, forLoop_succ lo (lo + (n : Int)) body s (by omega)]
    apply hstep _ _ (by omega) (by omega)
    apply ih
    intro k st h1 h2 h3
    exact hstep k st h1 (by omega) h3

/-- Unrolling the first iteration of a loop. -/
theorem forLoop_unroll {σ : Type} (lo hi : Int) (body : Int → σ → σ) (s : σ)
    (h : lo < hi) : forLoop lo hi body s = forLoop (lo + 1) hi body (body lo s) := by
  have h1 : (hi - lo).toNat = (hi - (lo + 1)).toNat + 1 := by omega
  unfold forLoop
  rw [h1, List.range_succ_eq_map, List.foldl_cons, List.foldl_map]
  simp only [Nat.cast_zero, add_zero, Nat.succ_eq_add_one, Nat.cast_add, Nat.cast_one]
  congr 1
  funext st m
  congr 1
  ring

/-- Two loops with bodies that agree on the range compute the same state. -/
theorem forLoop_congr {σ : Type} (lo hi : Int) (body body2 : Int → σ → σ) (s : σ)
    (h : ∀ k st, lo ≤ k → k < hi → body k st = body2 k st) :
    forLoop lo hi body s = forLoop lo hi body2 s := by
  rcases le_or_lt lo hi with hle | hlt
  · apply forLoop_invariant (fun m st => st = forLoop lo m body2 s) lo hi body s hle
    · rw [forLoop_empty _ _ _ _ le_rfl]
    · intro k st h1 h2 e
      rw [forLoop_succ _ _ _ _ h1, ← e, h k st h1 h2]
  · rw [forLoop_empty _ _ _ _ (le_of_lt hlt), forLoop_empty _ _ _ _ (le_of_lt hlt)]

/-- A loop can be cut in two at any point of its range. -/
theorem forLoop_split {σ : Type} (lo mid hi : Int) (body : Int → σ → σ) (s : σ)
    (h1 : lo ≤ mid) (h2 : mid ≤ hi) :
    forLoop lo hi body s = forLoop mid hi body (forLoop lo mid body s) := by
  apply forLoop_invariant
    (fun m st => forLoop lo m body s = st) mid hi body (forLoop lo mid body s) h2 rfl
  intro k st hk1 hk2 e
  rw [forLoop_succ _ _ _ _ (by omega), e]

/-! ## Theorems about `UMF_apply_order` -/

/-- C8: when every rank other than `EMPTY` is unique and lies in `[0, nfr)`,
`UMF_apply_order` leaves `Front [Order [i]]` equal to the old `Front [i]` for
every node `i` in `0 .. nn-1` whose rank is not `EMPTY`. -/
theorem apply_order_reindex (Front Order Temp : Int → Int) (nn nfr : Int)
    (_hle : nfr ≤ nn)
    (hrange : ∀ i, 0 ≤ i → i < nn → Order i ≠ EMPTY → 0 ≤ Order i ∧ Order i < nfr)
    (huniq : ∀ i j, 0 ≤ i → i < nn → 0 ≤ j → j < nn → Order i ≠ EMPTY →
      Order i = Order j → i = j) :
    ∀ i, 0 ≤ i → i < nn → Order i ≠ EMPTY →
      (UMF_apply_order Front Order Temp nn nfr).1 (Order i) = Front i := by
  intro i hi0 hi1 hie
  have hnn : (0 : Int) ≤ nn := by omega
  have hscatter : ∀ j, 0 ≤ j → j < nn → Order j ≠ EMPTY →
      (forLoop 0 nn
        (fun i T => if Order i ≠ EMPTY then setAt T (Order i) (Front i) else T) Temp)
        (Order j) = Front j := by
    apply forLoop_invariant
      (fun m T => ∀ j, 0 ≤ j → j < m → Order j ≠ EMPTY → T (Order j) = Front j) 0 nn
      _ Temp hnn
    · intro j h1 h2; omega
    · intro k T hk0 hk1 ih j hj0 hj1 hje
      by_cases hkj : j = k
      · subst hkj
        simp [hje, setAt]
      · have hjk : j < k := by omega
        by_cases hke : Order k ≠ EMPTY
        · have hne : Order j ≠ Order k := fun e =>
            hkj (huniq j k hj0 (by omega) hk0 hk1 hje e)
          simp only [hke, ne_eq, not_false_eq_true, if_true, setAt, hne, if_false]
          exact ih j hj0 hjk hje
        · simp only [hke, if_false]
          exact ih j hj0 hjk hje
  obtain ⟨hr0, hr1⟩ := hrange i hi0 hi1 hie
  have hnfr : (0 : Int) ≤ nfr := by omega
  have hcopy : ∀ (T : Int → Int) k, 0 ≤ k → k < nfr →
      (forLoop 0 nfr (fun k F => setAt F k (T k)) Front) k = T k := by
    intro T
    apply forLoop_invariant (fun m F => ∀ k, 0 ≤ k → k < m → F k = T k) 0 nfr _ Front hnfr
    · intro k h1 h2; omega
    · intro k F _ _ ih j hj0 hj1
      by_cases hkj : j = k
      · simp [setAt, hkj]
      · simp only [setAt, hkj, if_false]
        exact ih j hj0 (by omega)
  simp only [UMF_apply_order]
  rw [hcopy _ (Order i) hr0 hr1]
  exact hscatter i hi0 hi1 hie

theorem apply_order_reindex_witness :
    (UMF_apply_order (ofList [10, 99, 20, 30] 0) (ofList [2, EMPTY, 0, 1] EMPTY)
      (fun _ => 0) 4 3).1 0 = 20 ∧
    (UMF_apply_order (ofList [10, 99, 20, 30] 0) (ofList [2, EMPTY, 0, 1] EMPTY)
      (fun _ => 0) 4 3).1 1 = 30 ∧
    (UMF_apply_order (ofList [10, 99, 20, 30] 0) (ofList [2, EMPTY, 0, 1] EMPTY)
      (fun _ => 0) 4 3).1 2 = 10 := by
  have hrange : ∀ i : Int, 0 ≤ i → i < 4 → ofList [2, EMPTY, 0, 1] EMPTY i ≠ EMPTY →
      0 ≤ ofList [2, EMPTY, 0, 1] EMPTY i ∧ ofList [2, EMPTY, 0, 1] EMPTY i < 3 := by
    intro i h0 h1
    interval_cases i <;> simp [ofList, EMPTY]
  have huniq : ∀ i j : Int, 0 ≤ i → i < 4 → 0 ≤ j → j < 4 →
      ofList [2, EMPTY, 0, 1] EMPTY i ≠ EMPTY →
      ofList [2, EMPTY, 0, 1] EMPTY i = ofList [2, EMPTY, 0, 1] EMPTY j → i = j := by
    intro i j h0 h1 h2 h3
    interval_cases i <;> interval_cases j <;> simp [ofList, EMPTY]
  have key := apply_order_reindex (ofList [10, 99, 20, 30] 0)
    (ofList [2, EMPTY, 0, 1] EMPTY) (fun _ => 0) 4 3 (by decide) hrange huniq
  exact ⟨key 2 (by decide) (by decide) (by decide),
    key 3 (by decide) (by decide) (by decide),
    key 0 (by decide) (by decide) (by decide)⟩

/-! ## Theorems about `UMF_realloc` -/

/-- C9: when `max (1, n_objects) * size_of_object`, as an exact integer, exceeds
`Int_MAX`, `UMF_realloc` returns `NULL`, makes no call of `realloc_func` and
leaves the allocator state as it was.  The hypotheses on `Int_MAX` say that `1`
and `n_objects` are values of the type `Int`, which `size_t` can hold. -/
theorem realloc_overflow_guard {W : Type} (Int_MAX SIZE_MAX : Nat)
    (realloc_func : Ptr → Nat → W → Ptr × W) (p : Ptr) (n_objects : Int)
    (size_of_object : Nat) (w : W)
    (hone : 1 ≤ Int_MAX) (hmax : Int_MAX ≤ SIZE_MAX) (hn : n_objects ≤ (Int_MAX : Int))
    (hs : 1 ≤ size_of_object)
    (hover : (Int_MAX : Int) < max 1 n_objects * (size_of_object : Int)) :
    (UMF_realloc Int_MAX SIZE_MAX realloc_func p n_objects size_of_object w).ret = NULL ∧
    (UMF_realloc Int_MAX SIZE_MAX realloc_func p n_objects size_of_object w).calls = [] ∧
    (UMF_realloc Int_MAX SIZE_MAX realloc_func p n_objects size_of_object w).world = w := by
  have h1 : (max 1 n_objects).toNat % (SIZE_MAX + 1) = (max 1 n_objects).toNat := by
    apply Nat.mod_eq_of_lt
    have : max 1 n_objects ≤ (Int_MAX : Int) := max_le (by exact_mod_cast hone) hn
    omega
  have h2 : Int_MAX % (SIZE_MAX + 1) = Int_MAX := Nat.mod_eq_of_lt (by omega)
  have h3 : Int_MAX / size_of_object < (max 1 n_objects).toNat := by
    rw [Nat.div_lt_iff_lt_mul (by omega)]
    have hpos : (0 : Int) ≤ max 1 n_objects := le_trans (by decide) (le_max_left 1 n_objects)
    have : ((max 1 n_objects).toNat : Int) = max 1 n_objects := Int.toNat_of_nonneg hpos
    rw [← this] at hover
    exact_mod_cast hover
  simp [UMF_realloc, h1, h2, h3]

theorem realloc_overflow_guard_witness :
    (UMF_realloc 2147483647 18446744073709551615 (growInPlace 64) 1 1073741824 8 heap1).ret
      = NULL ∧
    (UMF_realloc 2147483647 18446744073709551615 (growInPlace 64) 1 1073741824 8 heap1).calls
      = [] ∧
    (UMF_realloc 2147483647 18446744073709551615 (growInPlace 64) 1 1073741824 8 heap1).world
      = heap1 :=
  realloc_overflow_guard 2147483647 18446744073709551615 (growInPlace 64) 1 1073741824 8 heap1
    (by decide) (by decide) (by decide) (by decide) (by decide)

/-- The primitive `growInPlace` keeps the contract of a reallocation
primitive. -/
theorem growInPlace_contract (limit : Nat) : ReallocContract (growInPlace limit) := by
  intro p size h old hp
  unfold growInPlace
  by_cases hc : p = NULL ∨ limit < size
  · simp [hc, hp]
  · simp only [hc, if_false, hp]
    refine ⟨fun e => absurd (Or.inl e) hc,
      fun _ => ⟨old.take size ++ List.replicate (size - old.length) 0, by simp, ?_, ?_⟩⟩
    · simp only [List.length_append, List.length_take, List.length_replicate]
      omega
    · rcases le_total old.length size with hle | hle
      · rw [List.take_of_length_le hle, List.take_left' rfl]
      · have : size - old.length = 0 := by omega
        rw [this, List.replicate_zero, List.append_nil, List.take_take, min_eq_right hle]

/-- C10: relative to a primitive that keeps `ReallocContract`, growing the
block at `p`, which holds `c1` objects of `size_of_object` bytes, to `c2 > c1`
objects: if `UMF_realloc` returns a handle other than `NULL`, the block at that
handle has `c2 * size_of_object` bytes and its first `c1 * size_of_object` bytes
are the old contents; if it returns `NULL`, the block at `p` is the old one,
contents and size; and when the request fits `Int_MAX` and the primitive
returns `NULL`, so does `UMF_realloc`. -/
theorem realloc_grow (Int_MAX SIZE_MAX : Nat)
    (realloc_func : Ptr → Nat → Heap → Ptr × Heap) (hf : ReallocContract realloc_func)
    (h : Heap) (p : Ptr) (old : List Nat) (c1 c2 size_of_object : Nat)
    (hmax : Int_MAX ≤ SIZE_MAX) (hc2 : c2 ≤ Int_MAX)
    (hp : h p = some old) (hold : old.length = c1 * size_of_object) (hc : c1 < c2)
    (hs : 1 ≤ size_of_object) :
    ((UMF_realloc Int_MAX SIZE_MAX realloc_func p (c2 : Int) size_of_object h).ret ≠ NULL →
      ∃ new,
        (UMF_realloc Int_MAX SIZE_MAX realloc_func p (c2 : Int) size_of_object h).world
          (UMF_realloc Int_MAX SIZE_MAX realloc_func p (c2 : Int) size_of_object h).ret
          = some new ∧
        new.length = c2 * size_of_object ∧ new.take (c1 * size_of_object) = old) ∧
    ((UMF_realloc Int_MAX SIZE_MAX realloc_func p (c2 : Int) size_of_object h).ret = NULL →
      (UMF_realloc Int_MAX SIZE_MAX realloc_func p (c2 : Int) size_of_object h).world p
        = some old) ∧
    (c2 * size_of_object ≤ Int_MAX →
      (realloc_func p (c2 * size_of_object) h).1 = NULL →
      (UMF_realloc Int_MAX SIZE_MAX realloc_func p (c2 : Int) size_of_object h).ret = NULL ∧
      (UMF_realloc Int_MAX SIZE_MAX realloc_func p (c2 : Int) size_of_object h).world p
        = some old) := by
  have hn : (max 1 (c2 : Int)).toNat = c2 := by
    have : (1 : Int) ≤ (c2 : Int) := by omega
    rw [max_eq_right this]; simp
  have h1 : c2 % (SIZE_MAX + 1) = c2 := Nat.mod_eq_of_lt (by omega)
  have h2 : Int_MAX % (SIZE_MAX + 1) = Int_MAX := Nat.mod_eq_of_lt (by omega)
  by_cases hfit : c2 * size_of_object ≤ Int_MAX
  · have h3 : ¬ c2 > Int_MAX / size_of_object := by
      rw [gt_iff_lt, Nat.div_lt_iff_lt_mul (by omega)]; omega
    have h4 : c2 * size_of_object % (SIZE_MAX + 1) = c2 * size_of_object :=
      Nat.mod_eq_of_lt (by omega)
    obtain ⟨hfail, hsucc⟩ := hf p (c2 * size_of_object) h old hp
    have hle : c1 * size_of_object ≤ c2 * size_of_object :=
      Nat.mul_le_mul_right _ (by omega)
    simp only [UMF_realloc, hn, h1, h2, h3, h4, if_false]
    refine ⟨fun hne => ?_, hfail, fun _ hnull => ⟨hnull, hfail hnull⟩⟩
    obtain ⟨new, e1, e2, e3⟩ := hsucc hne
    refine ⟨new, e1, e2, ?_⟩
    rw [← hold, e3, List.take_of_length_le (by omega)]
  · have h3 : c2 > Int_MAX / size_of_object := by
      rw [gt_iff_lt, Nat.div_lt_iff_lt_mul (by omega)]; omega
    simp only [UMF_realloc, hn, h1, h2, h3, if_true]
    exact ⟨fun hne => absurd rfl hne, fun _ => hp, fun hle => absurd hle hfit⟩

theorem realloc_grow_witness :
    ((UMF_realloc 2147483647 18446744073709551615 (growInPlace 64) 1 ((3 : Nat) : Int) 2
        heap1).ret ≠ NULL →
      ∃ new,
        (UMF_realloc 2147483647 18446744073709551615 (growInPlace 64) 1 ((3 : Nat) : Int) 2
            heap1).world
          (UMF_realloc 2147483647 18446744073709551615 (growInPlace 64) 1 ((3 : Nat) : Int) 2
            heap1).ret = some new ∧
        new.length = 3 * 2 ∧ new.take (2 * 2) = [7, 8, 9, 10]) ∧
    ((UMF_realloc 2147483647 18446744073709551615 (growInPlace 64) 1 ((3 : Nat) : Int) 2
        heap1).ret = NULL →
      (UMF_realloc 2147483647 18446744073709551615 (growInPlace 64) 1 ((3 : Nat) : Int) 2
        heap1).world 1 = some [7, 8, 9, 10]) ∧
    (3 * 2 ≤ 2147483647 →
      (growInPlace 64 1 (3 * 2) heap1).1 = NULL →
      (UMF_realloc 2147483647 18446744073709551615 (growInPlace 64) 1 ((3 : Nat) : Int) 2
        heap1).ret = NULL ∧
      (UMF_realloc 2147483647 18446744073709551615 (growInPlace 64) 1 ((3 : Nat) : Int) 2
        heap1).world 1 = some [7, 8, 9, 10]) :=
  realloc_grow 2147483647 18446744073709551615 (growInPlace 64) (growInPlace_contract 64)
    heap1 1 [7, 8, 9, 10] 2 3 2 (by decide) (by decide) rfl rfl (by decide) (by decide)

/-! ## Theorems about `UMF_lsolve` -/

/-- C3: for a store that is not square, `UMF_lsolve` returns `0` and leaves `X`
and the pattern workspace as they were. -/
theorem lsolve_nonsquare {K : Type} [CommRing K] [DecidableEq K] (UNITS_Int : Int → Int)
    (MULTSUB_FLOPS : Int) (Numeric : NumericType K) (X : Int → K) (Pattern : Int → Int)
    (h : Numeric.n_row ≠ Numeric.n_col) :
    (UMF_lsolve UNITS_Int MULTSUB_FLOPS Numeric X Pattern).flops = 0 ∧
    (UMF_lsolve UNITS_Int MULTSUB_FLOPS Numeric X Pattern).X = X ∧
    (UMF_lsolve UNITS_Int MULTSUB_FLOPS Numeric X Pattern).Pattern = Pattern := by
  simp [UMF_lsolve, h]

theorem lsolve_nonsquare_witness :
    (UMF_lsolve units4 2 { store3 with n_col := 4 } (ofList [1, 2, 3] 0) (fun _ => 0)).flops
      = 0 ∧
    (UMF_lsolve units4 2 { store3 with n_col := 4 } (ofList [1, 2, 3] 0) (fun _ => 0)).X
      = ofList [1, 2, 3] 0 ∧
    (UMF_lsolve units4 2 { store3 with n_col := 4 } (ofList [1, 2, 3] 0) (fun _ => 0)).Pattern
      = (fun _ => 0) :=
  lsolve_nonsquare units4 2 { store3 with n_col := 4 } (ofList [1, 2, 3] 0) (fun _ => 0)
    (by decide)

/-- C2: for a 3-by-3 store with `n1 = 1` and `npiv = 3` whose singleton column 0
stores the single entry (row 2, value 2), whose column 1 starts a chain and
stores the single entry (row 2, value 3), and whose column 2 stores no new
entries (it either starts a chain, or continues the chain and removes its pivot
row, which is at position 0), `UMF_lsolve` on `X = [1, 2, 3]` leaves
`X = [1, 2, -5]`. -/
theorem lsolve_three_by_three (UNITS_Int : Int → Int) (MULTSUB_FLOPS : Int)
    (Numeric : NumericType ℚ) (X : Int → ℚ) (Pattern : Int → Int)
    (hrow : Numeric.n_row = 3) (hcol : Numeric.n_col = 3)
    (hn1 : Numeric.n1 = 1) (hnpiv : Numeric.npiv = 3)
    (h0len : Numeric.Lilen 0 = 1)
    (h0row : Numeric.MemoryInt (Numeric.Lip 0) 0 = 2)
    (h0val : Numeric.MemoryEntry (Numeric.Lip 0 + UNITS_Int 1) 0 = 2)
    (h1start : Numeric.Lip 1 < 0) (h1pos : Numeric.Lpos 1 = EMPTY)
    (h1len : Numeric.Lilen 1 = 1)
    (h1row : Numeric.MemoryInt (- Numeric.Lip 1) 0 = 2)
    (h1val : Numeric.MemoryEntry (- Numeric.Lip 1 + UNITS_Int 1) 0 = 3)
    (h2len : Numeric.Lilen 2 = 0)
    (h2 : (Numeric.Lip 2 < 0 ∧ Numeric.Lpos 2 = EMPTY) ∨
      (0 ≤ Numeric.Lip 2 ∧ Numeric.Lpos 2 = 0))
    (hX0 : X 0 = 1) (hX1 : X 1 = 2) (hX2 : X 2 = 3) :
    (UMF_lsolve UNITS_Int MULTSUB_FLOPS Numeric X Pattern).X 0 = 1 ∧
    (UMF_lsolve UNITS_Int MULTSUB_FLOPS Numeric X Pattern).X 1 = 2 ∧
    (UMF_lsolve UNITS_Int MULTSUB_FLOPS Numeric X Pattern).X 2 = -5 := by
  have hsq : ¬ Numeric.n_row ≠ Numeric.n_col := by rw [hrow, hcol]; decide
  have e1 : forLoop 0 1 (singletonStep UNITS_Int Numeric) X = setAt X 2 1 := by
    rw [forLoop_unroll _ _ _ _ (by decide), forLoop_empty _ _ _ _ (by decide)]
    simp only [singletonStep, h0len, hX0]
    rw [if_pos (by decide), forLoop_unroll _ _ _ _ (by decide),
      forLoop_empty _ _ _ _ (by decide), h0row, h0val, hX2]
    norm_num
  have e2 : chainPattern Numeric 1 (Pattern, 0) = (setAt Pattern 0 2, 1) := by
    simp only [chainPattern, chainOffset, h1start, if_true, h1pos, ne_eq, not_true_eq_false,
      if_false, h1len]
    rw [forLoop_unroll _ _ _ _ (by decide), forLoop_empty _ _ _ _ (by decide), h1row]
    rfl
  have e3 : ∀ (P : Int → Int), (chainPattern Numeric 2 (P, 1)).2 = 0 := by
    intro P
    rcases h2 with ⟨ha, hb⟩ | ⟨ha, hb⟩
    · simp only [chainPattern, ha, if_true, hb, ne_eq, not_true_eq_false, if_false, h2len]
      rw [forLoop_empty _ _ _ _ (by decide)]
    · have hc : ¬ Numeric.Lip 2 < 0 := by omega
      simp only [chainPattern, hc, if_false, hb, h2len]
      rw [forLoop_empty _ _ _ _ (by decide), if_pos (by decide)]
      rfl
  have e4 : ∀ (P : Int → Int) (Y : Int → ℚ), chainUse UNITS_Int Numeric 2 P 0 Y = Y := by
    intro P Y
    simp only [chainUse]
    split
    · rw [forLoop_empty _ _ _ _ (by decide)]
    · rfl
  have e5 : chainUse UNITS_Int Numeric 1 (setAt Pattern 0 2) 1 (setAt X 2 1)
      = setAt (setAt X 2 1) 2 (-5) := by
    have hx : (setAt X 2 1) 1 = 2 := by simp [setAt, hX1]
    simp only [chainUse, hx, chainOffset, h1start, if_true, h1len]
    rw [if_pos (by norm_num), forLoop_unroll _ _ _ _ (by decide),
      forLoop_empty _ _ _ _ (by decide), h1val]
    simp [setAt]
    norm_num
  simp only [UMF_lsolve, hsq, if_false, hn1, hnpiv, e1]
  rw [forLoop_unroll _ _ _ _ (by decide), forLoop_unroll _ _ _ _ (by decide),
    forLoop_empty _ _ _ _ (by decide)]
  simp only [chainStep, e2, e5]
  norm_num
  rw [e3, e4]
  simp [setAt, hX0, hX1]

theorem lsolve_three_by_three_witness :
    (UMF_lsolve units4 2 store3 (ofList [1, 2, 3] 0) (fun _ => 0)).X 0 = 1 ∧
    (UMF_lsolve units4 2 store3 (ofList [1, 2, 3] 0) (fun _ => 0)).X 1 = 2 ∧
    (UMF_lsolve units4 2 store3 (ofList [1, 2, 3] 0) (fun _ => 0)).X 2 = -5 :=
  lsolve_three_by_three units4 2 store3 (ofList [1, 2, 3] 0) (fun _ => 0)
    rfl rfl rfl rfl (by decide) (by decide) (by simp [store3, units4, ofList])
    (by decide) (by decide) (by decide) (by decide) (by simp [store3, units4, ofList])
    (by decide) (Or.inr ⟨by decide, by decide⟩)
    (by simp [ofList]) (by simp [ofList]) (by simp [ofList])

/-- No entry for row `i`, no coefficient. -/
theorem colCoef_eq_zero {K : Type} [CommRing K] (col : List (Int × K)) (i : Int)
    (h : ∀ e ∈ col, e.1 ≠ i) : colCoef col i = 0 := by
  unfold colCoef
  apply List.sum_eq_zero
  intro x hx
  obtain ⟨e, he, rfl⟩ := List.mem_map.1 hx
  simp [h e he]

/-- Subtracting `xk` times each value of a column from its row subtracts `xk`
times the coefficient of the column. -/
theorem foldl_update {K : Type} [CommRing K] (xk : K) (col : List (Int × K)) :
    ∀ (X : Int → K) (i : Int),
      (col.foldl (fun Y e => setAt Y e.1 (Y e.1 - xk * e.2)) X) i
        = X i - xk * colCoef col i := by
  induction col with
  | nil => intro X i; simp [colCoef]
  | cons e col ih =>
    intro X i
    rw [List.foldl_cons, ih]
    simp only [colCoef, List.map_cons, List.sum_cons, setAt]
    by_cases h : i = e.1
    · subst h; simp; ring
    · have h2 : ¬ e.1 = i := fun e => h e.symm
      simp [h, h2]

/-- The inner loops of `UMF_lsolve` in terms of `colCoef`. -/
theorem forLoop_update {K : Type} [CommRing K] (xk : K) (r : Int → Int) (v : Int → K)
    (deg : Int) (X : Int → K) (i : Int) :
    (forLoop 0 deg (fun j Y => setAt Y (r j) (Y (r j) - xk * v j)) X) i
      = X i - xk * colCoef ((List.range deg.toNat).map (fun (j : Nat) => (r j, v j))) i := by
  rw [← foldl_update, List.foldl_map]
  simp [forLoop]

/-- An iteration of the singleton loop is a step of forward substitution with
the stored column. -/
theorem singletonStep_eq {K : Type} [CommRing K] [DecidableEq K] (UNITS_Int : Int → Int)
    (Numeric : NumericType K) (Pattern0 : Int → Int) (k : Int) (X : Int → K)
    (h0 : 0 ≤ k) (h1 : k < Numeric.n1) :
    singletonStep UNITS_Int Numeric k X
      = eliminate (fun k i => colCoef (Lcolumn UNITS_Int Numeric Pattern0 k) i) k X := by
  funext i
  simp only [eliminate, Lcolumn, h0, h1, and_self, if_true, singletonStep]
  split
  · rw [forLoop_update]
  · rename_i h
    by_cases hd : 0 < Numeric.Lilen k
    · have hx : X k = 0 := by
        by_contra hx
        exact h ⟨hd, hx⟩
      simp [hx]
    · have : (Numeric.Lilen k).toNat = 0 := by omega
      simp [this, colCoef]

/-- The use of a chain column is a step of forward substitution with the
pattern paired with the stored values. -/
theorem chainUse_eq {K : Type} [CommRing K] [DecidableEq K] (UNITS_Int : Int → Int)
    (Numeric : NumericType K) (k : Int) (Pattern : Int → Int) (deg : Int) (X : Int → K)
    (i : Int) :
    chainUse UNITS_Int Numeric k Pattern deg X i
      = X i - X k * colCoef ((List.range deg.toNat).map (fun (j : Nat) =>
          (Pattern (j : Int),
           Numeric.MemoryEntry (chainOffset Numeric k + UNITS_Int (Numeric.Lilen k)) (j : Int))))
          i := by
  simp only [chainUse]
  split
  · rw [forLoop_update]
  · rename_i h
    have hx : X k = 0 := by
      by_contra hx
      exact h hx
    simp [hx]

/-- The chain loop computes the pattern with `chainPattern` and the vector by
forward substitution with the decoded columns. -/
theorem chainLoop_eq {K : Type} [CommRing K] [DecidableEq K] (UNITS_Int : Int → Int)
    (Numeric : NumericType K) (Pattern0 : Int → Int) (X1 : Int → K)
    (h : Numeric.n1 ≤ Numeric.npiv) :
    forLoop Numeric.n1 Numeric.npiv (chainStep UNITS_Int Numeric)
        { X := X1, Pattern := Pattern0, deg := 0 }
      = { X := forLoop Numeric.n1 Numeric.npiv
            (eliminate (fun k i => colCoef (Lcolumn UNITS_Int Numeric Pattern0 k) i)) X1,
          Pattern := (forLoop Numeric.n1 Numeric.npiv (chainPattern Numeric) (Pattern0, 0)).1,
          deg := (forLoop Numeric.n1 Numeric.npiv (chainPattern Numeric) (Pattern0, 0)).2 } := by
  apply forLoop_invariant
    (fun m (st : ChainState K) => st =
      { X := forLoop Numeric.n1 m
          (eliminate (fun k i => colCoef (Lcolumn UNITS_Int Numeric Pattern0 k) i)) X1,
        Pattern := (forLoop Numeric.n1 m (chainPattern Numeric) (Pattern0, 0)).1,
        deg := (forLoop Numeric.n1 m (chainPattern Numeric) (Pattern0, 0)).2 })
    Numeric.n1 Numeric.npiv _ _ h
  · simp [forLoop_empty]
  · intro k st hk1 hk2 e
    subst e
    have hp : chainPattern Numeric k
        (forLoop Numeric.n1 k (chainPattern Numeric) (Pattern0, 0))
        = forLoop Numeric.n1 (k + 1) (chainPattern Numeric) (Pattern0, 0) :=
      (forLoop_succ _ _ _ _ hk1).symm
    have hnot : ¬ (0 ≤ k ∧ k < Numeric.n1) := by omega
    have hx : ∀ (Y : Int → K),
        chainUse UNITS_Int Numeric k
          (forLoop Numeric.n1 (k + 1) (chainPattern Numeric) (Pattern0, 0)).1
          (forLoop Numeric.n1 (k + 1) (chainPattern Numeric) (Pattern0, 0)).2 Y
        = eliminate (fun k i => colCoef (Lcolumn UNITS_Int Numeric Pattern0 k) i) k Y := by
      intro Y
      funext i
      rw [chainUse_eq]
      simp only [eliminate, Lcolumn, hnot, if_false, hk1, hk2, and_self, if_true]
    simp only [chainStep, hp, hx]
    rw [forLoop_succ _ _ (eliminate _) _ hk1]

/-- Forward substitution: after the steps for columns `0 .. N-1`, with
coefficients that vanish on and above the diagonal, `X` solves the system of
those columns. -/
theorem forward_subst {K : Type} [CommRing K] (c : Int → Int → K)
    (hc : ∀ k i, i ≤ k → c k i = 0) (b : Int → K) (N : Nat) :
    ∀ i, forLoop 0 (N : Int) (eliminate c) b i
      = b i - ∑ m ∈ Finset.range N,
          c (m : Int) i * forLoop 0 (N : Int) (eliminate c) b (m : Int) := by
  induction N with
  | zero => intro i; simp [forLoop_empty]
  | succ N ih =>
    intro i
    have e : ((N + 1 : Nat) : Int) = (N : Int) + 1 := by push_cast; ring
    rw [e, forLoop_succ _ _ _ _ (by omega)]
    have hkeep : ∀ m : Nat, m ≤ N →
        eliminate c (N : Int) (forLoop 0 (N : Int) (eliminate c) b) (m : Int)
          = forLoop 0 (N : Int) (eliminate c) b (m : Int) := by
      intro m hm
      simp only [eliminate]
      rw [hc (N : Int) (m : Int) (by exact_mod_cast hm)]
      ring
    rw [Finset.sum_range_succ, hkeep N le_rfl]
    have hsum : ∑ m ∈ Finset.range N, c (m : Int) i *
          eliminate c (N : Int) (forLoop 0 (N : Int) (eliminate c) b) (m : Int)
        = ∑ m ∈ Finset.range N, c (m : Int) i * forLoop 0 (N : Int) (eliminate c) b (m : Int) := by
      apply Finset.sum_congr rfl
      intro m hm
      rw [hkeep m (le_of_lt (Finset.mem_range.1 hm))]
    rw [hsum]
    conv_lhs => simp only [eliminate]
    rw [ih i]
    ring

/-- A sum over `List.range` is a sum over `Finset.range`. -/
theorem list_range_sum {K : Type} [CommRing K] (f : Nat → K) (n : Nat) :
    ((List.range n).map f).sum = ∑ m ∈ Finset.range n, f m := by
  induction n with
  | zero => simp
  | succ n ih => simp [List.range_succ, Finset.sum_range_succ, ih]

/-- The vector that a square `UMF_lsolve` leaves is the result of forward
substitution over the columns `0 .. M-1`, where `M` is past every stored
column. -/
theorem lsolve_eq_eliminate {K : Type} [CommRing K] [DecidableEq K] (UNITS_Int : Int → Int)
    (MULTSUB_FLOPS : Int) (Numeric : NumericType K) (b : Int → K) (Pattern0 : Int → Int)
    (hsq : Numeric.n_row = Numeric.n_col) (hn1 : 0 ≤ Numeric.n1) :
    ∃ M : Nat, (∀ k : Int, (M : Int) ≤ k → Lcolumn UNITS_Int Numeric Pattern0 k = []) ∧
      (UMF_lsolve UNITS_Int MULTSUB_FLOPS Numeric b Pattern0).X
        = forLoop 0 (M : Int)
            (eliminate (fun k i => colCoef (Lcolumn UNITS_Int Numeric Pattern0 k) i)) b := by
  have hX1 : forLoop 0 Numeric.n1 (singletonStep UNITS_Int Numeric) b
      = forLoop 0 Numeric.n1
          (eliminate (fun k i => colCoef (Lcolumn UNITS_Int Numeric Pattern0 k) i)) b :=
    forLoop_congr _ _ _ _ _
      (fun k st h0 h1 => singletonStep_eq UNITS_Int Numeric Pattern0 k st h0 h1)
  have hsq2 : ¬ Numeric.n_row ≠ Numeric.n_col := fun h => h hsq
  rcases le_or_lt Numeric.n1 Numeric.npiv with hle | hlt
  · refine ⟨Numeric.npiv.toNat, ?_, ?_⟩
    · intro k hk
      have h1 : ¬ (0 ≤ k ∧ k < Numeric.n1) := by omega
      have h2 : ¬ (Numeric.n1 ≤ k ∧ k < Numeric.npiv) := by omega
      simp only [Lcolumn, h1, h2, if_false]
    · have e : ((Numeric.npiv.toNat : Nat) : Int) = Numeric.npiv := by omega
      simp only [UMF_lsolve, hsq2, if_false]
      rw [chainLoop_eq UNITS_Int Numeric Pattern0 _ hle, hX1, e,
        forLoop_split 0 Numeric.n1 Numeric.npiv _ b hn1 hle]
  · refine ⟨Numeric.n1.toNat, ?_, ?_⟩
    · intro k hk
      have h1 : ¬ (0 ≤ k ∧ k < Numeric.n1) := by omega
      have h2 : ¬ (Numeric.n1 ≤ k ∧ k < Numeric.npiv) := by omega
      simp only [Lcolumn, h1, h2, if_false]
    · have e : ((Numeric.n1.toNat : Nat) : Int) = Numeric.n1 := by omega
      simp only [UMF_lsolve, hsq2, if_false]
      rw [forLoop_empty _ _ _ _ (le_of_lt hlt), hX1, e]

/-- C1: for a square store with `0 ≤ n1` in which every decoded row index `r`
of every column `k` satisfies `k < r < n`, the matrix L that the store encodes
is unit lower triangular and the `X` that `UMF_lsolve` leaves satisfies
`L * X = b`, where `b` is the `X` it was given: row `i` of `L * X` is `b [i]`
for every `0 ≤ i < n`. -/
theorem lsolve_solves {K : Type} [CommRing K] [DecidableEq K] (UNITS_Int : Int → Int)
    (MULTSUB_FLOPS : Int) (Numeric : NumericType K) (b : Int → K) (Pattern0 : Int → Int)
    (hsq : Numeric.n_row = Numeric.n_col) (hn1 : 0 ≤ Numeric.n1)
    (hrows : ∀ k, ∀ e ∈ Lcolumn UNITS_Int Numeric Pattern0 k,
      k < e.1 ∧ e.1 < Numeric.n_row) :
    (∀ i k, i < k → Lentry UNITS_Int Numeric Pattern0 i k = 0) ∧
    (∀ i, Lentry UNITS_Int Numeric Pattern0 i i = 1) ∧
    ∀ i, 0 ≤ i → i < Numeric.n_row →
      Lmul UNITS_Int Numeric Pattern0 Numeric.n_row
        (UMF_lsolve UNITS_Int MULTSUB_FLOPS Numeric b Pattern0).X i = b i := by
  have hc0 : ∀ k i, i ≤ k → colCoef (Lcolumn UNITS_Int Numeric Pattern0 k) i = 0 := by
    intro k i hik
    apply colCoef_eq_zero
    intro e he
    have := (hrows k e he).1
    omega
  have hcn : ∀ k i, Numeric.n_row ≤ k + 1 →
      colCoef (Lcolumn UNITS_Int Numeric Pattern0 k) i = 0 := by
    intro k i hk
    apply colCoef_eq_zero
    intro e he
    have := hrows k e he
    omega
  refine ⟨?_, ?_, ?_⟩
  · intro i k hik
    have hne : ¬ i = k := by omega
    simp [Lentry, hne, hc0 k i (le_of_lt hik)]
  · intro i
    simp [Lentry, hc0 i i le_rfl]
  · intro i hi0 hi1
    obtain ⟨M, hM, hX⟩ := lsolve_eq_eliminate UNITS_Int MULTSUB_FLOPS Numeric b Pattern0 hsq hn1
    have hfs := forward_subst (fun k i => colCoef (Lcolumn UNITS_Int Numeric Pattern0 k) i)
      hc0 b M i
    rw [← hX] at hfs
    obtain ⟨j, rfl⟩ : ∃ j : Nat, i = (j : Int) := ⟨i.toNat, by omega⟩
    have hj : j ∈ Finset.range Numeric.n_row.toNat := Finset.mem_range.2 (by omega)
    simp only [Lmul, Lentry]
    rw [list_range_sum]
    simp only [add_mul, Finset.sum_add_distrib, Nat.cast_inj, ite_mul, one_mul, zero_mul,
      Finset.sum_ite_eq, hj, if_true]
    have hsum : ∑ m ∈ Finset.range Numeric.n_row.toNat,
          colCoef (Lcolumn UNITS_Int Numeric Pattern0 (m : Int)) (j : Int) *
            (UMF_lsolve UNITS_Int MULTSUB_FLOPS Numeric b Pattern0).X (m : Int)
        = ∑ m ∈ Finset.range M,
          colCoef (Lcolumn UNITS_Int Numeric Pattern0 (m : Int)) (j : Int) *
            (UMF_lsolve UNITS_Int MULTSUB_FLOPS Numeric b Pattern0).X (m : Int) := by
      have hA := Finset.sum_subset
        (Finset.range_mono (le_max_left Numeric.n_row.toNat M))
        (f := fun m : Nat => colCoef (Lcolumn UNITS_Int Numeric Pattern0 (m : Int)) (j : Int) *
            (UMF_lsolve UNITS_Int MULTSUB_FLOPS Numeric b Pattern0).X (m : Int))
        (by
          intro m _ hm
          have hm2 : Numeric.n_row.toNat ≤ m := by simpa using hm
          dsimp only
          rw [hcn (m : Int) (j : Int) (by omega), zero_mul])
      have hB := Finset.sum_subset
        (Finset.range_mono (le_max_right Numeric.n_row.toNat M))
        (f := fun m : Nat => colCoef (Lcolumn UNITS_Int Numeric Pattern0 (m : Int)) (j : Int) *
            (UMF_lsolve UNITS_Int MULTSUB_FLOPS Numeric b Pattern0).X (m : Int))
        (by
          intro m _ hm
          have hm2 : M ≤ m := by simpa using hm
          dsimp only
          rw [hM (m : Int) (by exact_mod_cast hm2)]
          simp [colCoef])
      exact hA.trans hB.symm
    rw [hsum, hfs]
    ring

theorem lsolve_solves_witness :
    (∀ i k, i < k → Lentry units4 store3 (fun _ => 0) i k = 0) ∧
    (∀ i, Lentry units4 store3 (fun _ => 0) i i = 1) ∧
    ∀ i, 0 ≤ i → i < 3 →
      Lmul units4 store3 (fun _ => 0) 3
        (UMF_lsolve units4 2 store3 (ofList [1, 2, 3] 0) (fun _ => 0)).X i
        = ofList [1, 2, 3] 0 i := by
  have hrows : ∀ k, ∀ e ∈ Lcolumn units4 store3 (fun _ => 0) k,
      k < e.1 ∧ e.1 < store3.n_row := by
    intro k e he
    have hfst : e.1 ∈ (Lcolumn units4 store3 (fun _ => 0) k).map Prod.fst :=
      List.mem_map_of_mem _ he
    by_cases hk : 0 ≤ k ∧ k < 3
    · obtain ⟨h0, h3⟩ := hk
      interval_cases k
      · have h : (Lcolumn units4 store3 (fun _ => 0) 0).map Prod.fst = [2] := by decide
        rw [h, List.mem_singleton] at hfst
        rw [hfst]; decide
      · have h : (Lcolumn units4 store3 (fun _ => 0) 1).map Prod.fst = [2] := by decide
        rw [h, List.mem_singleton] at hfst
        rw [hfst]; decide
      · have h : (Lcolumn units4 store3 (fun _ => 0) 2).map Prod.fst = [] := by decide
        rw [h] at hfst
        exact absurd hfst (List.not_mem_nil _)
    · have h1 : ¬ (0 ≤ k ∧ k < store3.n1) := by
        intro h; apply hk; have : store3.n1 = 1 := rfl; omega
      have h2 : ¬ (store3.n1 ≤ k ∧ k < store3.npiv) := by
        intro h; apply hk
        have : store3.n1 = 1 := rfl
        have : store3.npiv = 3 := rfl
        omega
      simp only [Lcolumn, h1, h2, if_false] at he
      exact absurd he (List.not_mem_nil _)
  exact lsolve_solves units4 2 store3 (ofList [1, 2, 3] 0) (fun _ => 0) rfl (by decide) hrows

/-! ## More theorems about `UMF_mem_alloc_head_block` -/

/-- C17: from a state with `0 ≤ ihead ≤ itail ≤ size` and with `nunits ≥ 0`, the
state after `UMF_mem_alloc_head_block`, whether the request succeeds or fails,
still has `0 ≤ ihead ≤ itail ≤ size`, and `itail` and `size` are unchanged. -/
theorem alloc_head_invariant {K : Type} (Numeric : NumericType K) (nunits : Int)
    (h0 : 0 ≤ Numeric.ihead) (h1 : Numeric.ihead ≤ Numeric.itail)
    (h2 : Numeric.itail ≤ Numeric.size) (hn : 0 ≤ nunits) :
    0 ≤ (UMF_mem_alloc_head_block Numeric nunits).2.ihead ∧
    (UMF_mem_alloc_head_block Numeric nunits).2.ihead
      ≤ (UMF_mem_alloc_head_block Numeric nunits).2.itail ∧
    (UMF_mem_alloc_head_block Numeric nunits).2.itail
      ≤ (UMF_mem_alloc_head_block Numeric nunits).2.size ∧
    (UMF_mem_alloc_head_block Numeric nunits).2.itail = Numeric.itail ∧
    (UMF_mem_alloc_head_block Numeric nunits).2.size = Numeric.size := by
  by_cases h : nunits > Numeric.itail - Numeric.ihead
  · simp only [UMF_mem_alloc_head_block, h, if_true]
    exact ⟨h0, h1, h2, trivial, trivial⟩
  · simp only [UMF_mem_alloc_head_block, h, if_false]
    exact ⟨by omega, by omega, h2, trivial, trivial⟩

theorem alloc_head_invariant_witness :
    0 ≤ (UMF_mem_alloc_head_block (arena 100 1 98 2 3) 5).2.ihead ∧
    (UMF_mem_alloc_head_block (arena 100 1 98 2 3) 5).2.ihead
      ≤ (UMF_mem_alloc_head_block (arena 100 1 98 2 3) 5).2.itail ∧
    (UMF_mem_alloc_head_block (arena 100 1 98 2 3) 5).2.itail
      ≤ (UMF_mem_alloc_head_block (arena 100 1 98 2 3) 5).2.size ∧
    (UMF_mem_alloc_head_block (arena 100 1 98 2 3) 5).2.itail = 98 ∧
    (UMF_mem_alloc_head_block (arena 100 1 98 2 3) 5).2.size = 100 :=
  alloc_head_invariant (arena 100 1 98 2 3) 5 (by decide) (by decide) (by decide) (by decide)

/-- C18: two states that agree on `ihead` and `itail`, whatever their
`max_usage` and `tail_usage` (and other fields), give the same return value and
the same `ihead` and `itail` after `UMF_mem_alloc_head_block`. -/
theorem alloc_head_usage_independent {K : Type} (Numeric Numeric2 : NumericType K)
    (nunits : Int) (hh : Numeric.ihead = Numeric2.ihead)
    (ht : Numeric.itail = Numeric2.itail) :
    (UMF_mem_alloc_head_block Numeric nunits).1
      = (UMF_mem_alloc_head_block Numeric2 nunits).1 ∧
    (UMF_mem_alloc_head_block Numeric nunits).2.ihead
      = (UMF_mem_alloc_head_block Numeric2 nunits).2.ihead ∧
    (UMF_mem_alloc_head_block Numeric nunits).2.itail
      = (UMF_mem_alloc_head_block Numeric2 nunits).2.itail := by
  by_cases h : nunits > Numeric.itail - Numeric.ihead
  · have h' : nunits > Numeric2.itail - Numeric2.ihead := by rw [← hh, ← ht]; exact h
    simp only [UMF_mem_alloc_head_block, h, h', if_true]
    exact ⟨trivial, hh, ht⟩
  · have h' : ¬ nunits > Numeric2.itail - Numeric2.ihead := by rw [← hh, ← ht]; exact h
    simp only [UMF_mem_alloc_head_block, h, h', if_false]
    exact ⟨hh, by rw [hh], ht⟩

theorem alloc_head_usage_independent_witness :
    (UMF_mem_alloc_head_block (arena 100 1 98 2 3) 5).1
      = (UMF_mem_alloc_head_block (arena 100 1 98 40 70) 5).1 ∧
    (UMF_mem_alloc_head_block (arena 100 1 98 2 3) 5).2.ihead
      = (UMF_mem_alloc_head_block (arena 100 1 98 40 70) 5).2.ihead ∧
    (UMF_mem_alloc_head_block (arena 100 1 98 2 3) 5).2.itail
      = (UMF_mem_alloc_head_block (arena 100 1 98 40 70) 5).2.itail :=
  alloc_head_usage_independent (arena 100 1 98 2 3) (arena 100 1 98 40 70) 5 rfl rfl

/-! ## More theorems about `UMF_realloc` -/

/-- C19: when `size_of_object ≥ 1` and `max (1, n_objects) * size_of_object`
fits `Int_MAX`, `UMF_realloc` calls `realloc_func` exactly once, on `p` and with
the byte size `max (1, n_objects) * size_of_object`, which is at least
`size_of_object` and so positive, and it returns the handle of that call (and
leaves the allocator state of that call). -/
theorem realloc_delegates {W : Type} (Int_MAX SIZE_MAX : Nat)
    (realloc_func : Ptr → Nat → W → Ptr × W) (p : Ptr) (n_objects : Int)
    (size_of_object : Nat) (w : W)
    (hmax : Int_MAX ≤ SIZE_MAX) (hs : 1 ≤ size_of_object)
    (hfit : max 1 n_objects * (size_of_object : Int) ≤ (Int_MAX : Int)) :
    (UMF_realloc Int_MAX SIZE_MAX realloc_func p n_objects size_of_object w).calls
      = [(p, (max 1 n_objects).toNat * size_of_object)] ∧
    size_of_object ≤ (max 1 n_objects).toNat * size_of_object ∧
    0 < (max 1 n_objects).toNat * size_of_object ∧
    (UMF_realloc Int_MAX SIZE_MAX realloc_func p n_objects size_of_object w).ret
      = (realloc_func p ((max 1 n_objects).toNat * size_of_object) w).1 ∧
    (UMF_realloc Int_MAX SIZE_MAX realloc_func p n_objects size_of_object w).world
      = (realloc_func p ((max 1 n_objects).toNat * size_of_object) w).2 := by
  have hpos : (1 : Int) ≤ max 1 n_objects := le_max_left 1 n_objects
  have hcast : ((max 1 n_objects).toNat : Int) = max 1 n_objects :=
    Int.toNat_of_nonneg (by omega)
  have hone : 1 ≤ (max 1 n_objects).toNat := by omega
  have hprod : (max 1 n_objects).toNat * size_of_object ≤ Int_MAX := by
    rw [← hcast] at hfit
    exact_mod_cast hfit
  have hge : size_of_object ≤ (max 1 n_objects).toNat * size_of_object :=
    Nat.le_mul_of_pos_left _ hone
  have hle : (max 1 n_objects).toNat ≤ (max 1 n_objects).toNat * size_of_object :=
    Nat.le_mul_of_pos_right _ hs
  have h1 : (max 1 n_objects).toNat % (SIZE_MAX + 1) = (max 1 n_objects).toNat :=
    Nat.mod_eq_of_lt (by omega)
  have h2 : Int_MAX % (SIZE_MAX + 1) = Int_MAX := Nat.mod_eq_of_lt (by omega)
  have h3 : ¬ (max 1 n_objects).toNat > Int_MAX / size_of_object := by
    rw [gt_iff_lt, Nat.div_lt_iff_lt_mul (by omega)]
    omega
  have h4 : (max 1 n_objects).toNat * size_of_object % (SIZE_MAX + 1)
      = (max 1 n_objects).toNat * size_of_object := Nat.mod_eq_of_lt (by omega)
  refine ⟨?_, hge, by omega, ?_, ?_⟩ <;> simp only [UMF_realloc, h1, h2, h3, h4, if_false]

theorem realloc_delegates_witness :
    (UMF_realloc 2147483647 18446744073709551615 (growInPlace 64) 1 (-3) 2 heap1).calls
      = [(1, (max 1 (-3 : Int)).toNat * 2)] ∧
    2 ≤ (max 1 (-3 : Int)).toNat * 2 ∧
    0 < (max 1 (-3 : Int)).toNat * 2 ∧
    (UMF_realloc 2147483647 18446744073709551615 (growInPlace 64) 1 (-3) 2 heap1).ret
      = (growInPlace 64 1 ((max 1 (-3 : Int)).toNat * 2) heap1).1 ∧
    (UMF_realloc 2147483647 18446744073709551615 (growInPlace 64) 1 (-3) 2 heap1).world
      = (growInPlace 64 1 ((max 1 (-3 : Int)).toNat * 2) heap1).2 :=
  realloc_delegates 2147483647 18446744073709551615 (growInPlace 64) 1 (-3) 2 heap1
    (by decide) (by decide) (by decide)

/-! ## More theorems about `UMF_lsolve` -/

/-- C11: for a square store `UMF_lsolve` returns `MULTSUB_FLOPS * lnz`, which is
`2 * lnz` with two operations per stored nonzero, whatever `X` and the pattern
workspace are: the count is the same for any other `X` and workspace, so it
does not depend on which columns the zero test skips. -/
theorem lsolve_flops {K : Type} [CommRing K] [DecidableEq K] (UNITS_Int : Int → Int)
    (Numeric : NumericType K) (X X2 : Int → K) (Pattern Pattern2 : Int → Int)
    (hsq : Numeric.n_row = Numeric.n_col) :
    (UMF_lsolve UNITS_Int MULTSUB_FLOPS Numeric X Pattern).flops = 2 * Numeric.lnz ∧
    (UMF_lsolve UNITS_Int MULTSUB_FLOPS Numeric X2 Pattern2).flops
      = (UMF_lsolve UNITS_Int MULTSUB_FLOPS Numeric X Pattern).flops := by
  have h : ¬ Numeric.n_row ≠ Numeric.n_col := fun h => h hsq
  simp only [UMF_lsolve, h, if_false, MULTSUB_FLOPS, and_self]

theorem lsolve_flops_witness :
    (UMF_lsolve units4 MULTSUB_FLOPS store3 (ofList [1, 2, 3] 0) (fun _ => 0)).flops
      = 2 * store3.lnz ∧
    (UMF_lsolve units4 MULTSUB_FLOPS store3 (ofList [0, 0, 0] 0) (fun _ => 7)).flops
      = (UMF_lsolve units4 MULTSUB_FLOPS store3 (ofList [1, 2, 3] 0) (fun _ => 0)).flops :=
  lsolve_flops units4 store3 (ofList [1, 2, 3] 0) (ofList [0, 0, 0] 0) (fun _ => 0)
    (fun _ => 7) rfl

/-- With the zero test or without it, an iteration of the singleton loop
computes the same vector. -/
theorem singletonStep_noskip_eq {K : Type} [CommRing K] [DecidableEq K]
    (UNITS_Int : Int → Int) (Numeric : NumericType K) :
    singletonStep UNITS_Int Numeric = singletonStep_noskip UNITS_Int Numeric := by
  funext k X i
  simp only [singletonStep, singletonStep_noskip]
  split
  · rfl
  · rename_i h
    rw [forLoop_update]
    by_cases hd : 0 < Numeric.Lilen k
    · have hx : X k = 0 := by
        by_contra hx
        exact h ⟨hd, hx⟩
      simp [hx]
    · have : (Numeric.Lilen k).toNat = 0 := by omega
      simp [this, colCoef]

/-- With the zero test or without it, the use of a chain column computes the
same vector. -/
theorem chainUse_noskip_eq {K : Type} [CommRing K] [DecidableEq K]
    (UNITS_Int : Int → Int) (Numeric : NumericType K) :
    chainUse UNITS_Int Numeric = chainUse_noskip UNITS_Int Numeric := by
  funext k Pattern deg X i
  simp only [chainUse, chainUse_noskip]
  split
  · rfl
  · rename_i h
    have hx : X k = 0 := by
      by_contra hx
      exact h hx
    rw [forLoop_update]
    simp [hx]

/-- C16: over exact arithmetic `UMF_lsolve` and the variant that never tests
`xk` for zero and always performs the updates, in both phases, leave the same
`X` (and the same pattern workspace and count), for every store and every `X`. -/
theorem lsolve_zero_skip_exact {K : Type} [CommRing K] [DecidableEq K]
    (UNITS_Int : Int → Int) (MULTSUB_FLOPS : Int) (Numeric : NumericType K)
    (X : Int → K) (Pattern : Int → Int) :
    (UMF_lsolve UNITS_Int MULTSUB_FLOPS Numeric X Pattern).X
      = (UMF_lsolve_noskip UNITS_Int MULTSUB_FLOPS Numeric X Pattern).X ∧
    UMF_lsolve UNITS_Int MULTSUB_FLOPS Numeric X Pattern
      = UMF_lsolve_noskip UNITS_Int MULTSUB_FLOPS Numeric X Pattern := by
  have hstep : chainStep UNITS_Int Numeric = chainStep_noskip UNITS_Int Numeric := by
    funext k s
    simp only [chainStep, chainStep_noskip, chainUse_noskip_eq]
  have hall : UMF_lsolve UNITS_Int MULTSUB_FLOPS Numeric X Pattern
      = UMF_lsolve_noskip UNITS_Int MULTSUB_FLOPS Numeric X Pattern := by
    simp only [UMF_lsolve, UMF_lsolve_noskip, singletonStep_noskip_eq, hstep]
  exact ⟨by rw [hall], hall⟩

/-! ## The pattern of a chain column -/

/-- A loop to `hi` runs `hi.toNat` times from `0`. -/
theorem forLoop_toNat {σ : Type} (hi : Int) (body : Int → σ → σ) (s : σ) :
    forLoop 0 hi body s = forLoop 0 (hi.toNat : Int) body s := by
  have h : ((hi.toNat : Int) - 0).toNat = (hi - 0).toNat := by omega
  unfold forLoop
  rw [h]

/-- The loop that concatenates the pattern (lines 110-118), in closed form:
`n` entries are written from position `d1` on and `deg` grows by `n`. -/
theorem appendLoop_eq (M : Int → Int) (P1 : Int → Int) (d1 : Int) (n : Nat) :
    forLoop 0 (n : Int) (fun j (t : (Int → Int) × Int) => (setAt t.1 t.2 (M j), t.2 + 1))
        (P1, d1)
      = (fun j => if d1 ≤ j ∧ j < d1 + (n : Int) then M (j - d1) else P1 j,
         d1 + (n : Int)) := by
  induction n with
  | zero =>
    rw [forLoop_empty _ _ _ _ (by simp)]
    simp only [Nat.cast_zero, add_zero, Prod.mk.injEq, and_true]
    funext j
    have : ¬ (d1 ≤ j ∧ j < d1) := by omega
    simp only [this, if_false]
  | succ n ih =>
    have e : ((n + 1 : Nat) : Int) = (n : Int) + 1 := by push_cast; ring
    rw [e, forLoop_succ _ _ _ _ (by omega), ih]
    simp only [Prod.mk.injEq]
    refine ⟨?_, by ring⟩
    funext j
    simp only [setAt]
    by_cases hj : j = d1 + (n : Int)
    · subst hj
      have h1 : d1 ≤ d1 + (n : Int) ∧ d1 + (n : Int) < d1 + ((n : Int) + 1) := by omega
      simp only [if_true, h1, add_sub_cancel_left, and_self]
    · simp only [hj, if_false]
      by_cases h2 : d1 ≤ j ∧ j < d1 + (n : Int)
      · have h3 : d1 ≤ j ∧ j < d1 + ((n : Int) + 1) := by omega
        simp only [h2, h3, and_self, if_true]
      · have h3 : ¬ (d1 ≤ j ∧ j < d1 + ((n : Int) + 1)) := by omega
        simp only [h2, h3, if_false]

/-- The pattern step of a chain iteration in closed form. -/
theorem chainPattern_eq {K : Type} (Numeric : NumericType K) (k : Int)
    (s : (Int → Int) × Int) :
    chainPattern Numeric k s
      = (fun j =>
          if (if Numeric.Lpos k ≠ EMPTY
                then (if Numeric.Lip k < 0 then 0 else s.2) - 1
                else (if Numeric.Lip k < 0 then 0 else s.2)) ≤ j ∧
              j < (if Numeric.Lpos k ≠ EMPTY
                then (if Numeric.Lip k < 0 then 0 else s.2) - 1
                else (if Numeric.Lip k < 0 then 0 else s.2)) + ((Numeric.Lilen k).toNat : Int)
          then Numeric.MemoryInt (chainOffset Numeric k)
            (j - (if Numeric.Lpos k ≠ EMPTY
                then (if Numeric.Lip k < 0 then 0 else s.2) - 1
                else (if Numeric.Lip k < 0 then 0 else s.2)))
          else
            (if Numeric.Lpos k ≠ EMPTY
              then setAt s.1 (Numeric.Lpos k) (s.1 ((if Numeric.Lip k < 0 then 0 else s.2) - 1))
              else s.1) j,
         (if Numeric.Lpos k ≠ EMPTY
            then (if Numeric.Lip k < 0 then 0 else s.2) - 1
            else (if Numeric.Lip k < 0 then 0 else s.2)) + ((Numeric.Lilen k).toNat : Int)) := by
  simp only [chainPattern]
  rw [forLoop_toNat]
  split <;> rw [appendLoop_eq]

/-- Writing `v` over entry `p` of a list of `m > p` entries and adding the old
entry gives the list with `v` added. -/
theorem map_update_perm (f : Nat → Int) (v : Int) (p : Nat) :
    ∀ m, p < m →
      List.Perm (f p :: (List.range m).map (fun j => if j = p then v else f j))
        (v :: (List.range m).map f) := by
  intro m
  induction m with
  | zero => intro h; omega
  | succ m ih =>
    intro h
    rw [List.range_succ, List.map_append, List.map_append, List.map_singleton,
      List.map_singleton]
    by_cases hpm : p = m
    · subst hpm
      have hc : (List.range p).map (fun j => if j = p then v else f j)
          = (List.range p).map f := by
        apply List.map_congr_left
        intro j hj
        have : j ≠ p := by have := List.mem_range.1 hj; omega
        simp [this]
      rw [hc]
      simp only [if_true]
      rw [List.perm_iff_count]
      intro a
      simp only [List.count_cons, List.count_append, List.count_nil]
      split_ifs <;> omega
    · have hlt : p < m := by omega
      have hm : ¬ m = p := fun e => hpm e.symm
      simp only [hm, if_false]
      have := (ih hlt).append_right [f m]
      simpa using this

/-- Removing entry `p` of a list by moving its last entry there and dropping
the last position gives a permutation of the list without entry `p`. -/
theorem swap_remove_perm (f : Nat → Int) (m p : Nat) (hp : p ≤ m) :
    List.Perm ((List.range m).map (fun j => if j = p then f m else f j))
      (((List.range (m + 1)).map f).eraseIdx p) := by
  have hlen : p < ((List.range (m + 1)).map f).length := by simp; omega
  have hget : ((List.range (m + 1)).map f)[p] = f p := by simp
  have hR : List.Perm ((List.range (m + 1)).map f)
      (f p :: ((List.range (m + 1)).map f).eraseIdx p) := by
    have h1 := List.perm_cons_erase (List.getElem_mem hlen)
    rw [hget] at h1
    have h2 := List.erase_getElem hlen
    rw [hget] at h2
    exact h1.trans (h2.cons _)
  have hL : List.Perm (f p :: (List.range m).map (fun j => if j = p then f m else f j))
      ((List.range (m + 1)).map f) := by
    rw [List.range_succ, List.map_append, List.map_singleton]
    rcases Nat.lt_or_ge p m with hlt | hge
    · exact (map_update_perm f (f m) p m hlt).trans (List.perm_append_singleton _ _).symm
    · have hpm : p = m := by omega
      subst hpm
      have hc : (List.range p).map (fun j => if j = p then f p else f j)
          = (List.range p).map f := by
        apply List.map_congr_left
        intro j hj
        have : j ≠ p := by have := List.mem_range.1 hj; omega
        simp [this]
      rw [hc]
      exact (List.perm_append_singleton _ _).symm
  exact (hL.trans hR).cons_inv
/-- C15: for a chain-continuation column `k` (`Lip [k] ≥ 0`) that inherits
`deg > 0` pattern entries, removes position `pos = Lpos [k]` with
`0 ≤ pos < deg` and stores `Lilen [k] ≥ 0` indices, the removal and append steps
leave `deg' = deg - 1 + Lilen [k]`, and `Pattern [0 .. deg'-1]` is a
permutation of the inherited entries without the one at position `pos`,
followed by the stored indices of column `k`. -/
theorem chain_pattern_inheritance {K : Type} (Numeric : NumericType K) (k : Int)
    (Pattern : Int → Int) (deg : Int)
    (hcont : 0 ≤ Numeric.Lip k) (hdeg : 0 < deg)
    (hpos0 : 0 ≤ Numeric.Lpos k) (hpos1 : Numeric.Lpos k < deg)
    (hlen : 0 ≤ Numeric.Lilen k) :
    (chainPattern Numeric k (Pattern, deg)).2 = deg - 1 + Numeric.Lilen k ∧
    List.Perm
      (patList (chainPattern Numeric k (Pattern, deg)).1
        (chainPattern Numeric k (Pattern, deg)).2)
      ((patList Pattern deg).eraseIdx (Numeric.Lpos k).toNat ++ storedIndices Numeric k) := by
  have hne : Numeric.Lpos k ≠ EMPTY := by
    intro h
    rw [h] at hpos0
    exact absurd hpos0 (by decide)
  have hnl : ¬ Numeric.Lip k < 0 := by omega
  obtain ⟨m, hm⟩ : ∃ m : Nat, deg - 1 = (m : Int) := ⟨(deg - 1).toNat, by omega⟩
  obtain ⟨p, hp⟩ : ∃ p : Nat, Numeric.Lpos k = (p : Int) := ⟨(Numeric.Lpos k).toNat, by omega⟩
  obtain ⟨n, hn⟩ : ∃ n : Nat, Numeric.Lilen k = (n : Int) :=
    ⟨(Numeric.Lilen k).toNat, by omega⟩
  have hdeg2 : deg = ((m + 1 : Nat) : Int) := by push_cast; omega
  have hpm : p ≤ m := by omega
  have hne2 : ¬ ((p : Int) = EMPTY) := by rw [← hp]; exact hne
  have hcp : chainPattern Numeric k (Pattern, deg)
      = (fun j => if (m : Int) ≤ j ∧ j < (m : Int) + (n : Int)
            then Numeric.MemoryInt (chainOffset Numeric k) (j - (m : Int))
            else setAt Pattern (p : Int) (Pattern (m : Int)) j,
         (m : Int) + (n : Int)) := by
    rw [chainPattern_eq]
    simp only [hnl, if_false, hp, hne2, ne_eq, not_false_eq_true, if_true, hm, hn,
      Int.toNat_ofNat]
  rw [hcp]
  refine ⟨by omega, ?_⟩
  have e1 : ((m : Int) + (n : Int)).toNat = m + n := by omega
  have hL : patList (fun j => if (m : Int) ≤ j ∧ j < (m : Int) + (n : Int)
            then Numeric.MemoryInt (chainOffset Numeric k) (j - (m : Int))
            else setAt Pattern (p : Int) (Pattern (m : Int)) j) ((m : Int) + (n : Int))
      = (List.range m).map (fun (j : Nat) =>
            if j = p then Pattern (m : Int) else Pattern (j : Int))
        ++ (List.range n).map
            (fun (j : Nat) => Numeric.MemoryInt (chainOffset Numeric k) (j : Int)) := by
    simp only [patList, e1]
    rw [List.range_add, List.map_append, List.map_map]
    congr 1
    · apply List.map_congr_left
      intro j hj
      have hj2 := List.mem_range.1 hj
      have h1 : ¬ ((m : Int) ≤ (j : Int) ∧ (j : Int) < (m : Int) + (n : Int)) := by omega
      simp only [h1, if_false, setAt, Nat.cast_inj]
    · apply List.map_congr_left
      intro j hj
      have hj2 := List.mem_range.1 hj
      have h1 : (m : Int) ≤ ((m + j : Nat) : Int) ∧
          ((m + j : Nat) : Int) < (m : Int) + (n : Int) := by omega
      have h2 : ((m + j : Nat) : Int) - (m : Int) = (j : Int) := by omega
      simp only [Function.comp, h1, and_self, if_true, h2]
  have hR : patList Pattern deg = (List.range (m + 1)).map (fun (j : Nat) => Pattern (j : Int)) := by
    simp only [patList, hdeg2, Int.toNat_ofNat]
  have hS : storedIndices Numeric k = (List.range n).map
      (fun (j : Nat) => Numeric.MemoryInt (chainOffset Numeric k) (j : Int)) := by
    simp only [storedIndices, hn, Int.toNat_ofNat]
  have hP : (Numeric.Lpos k).toNat = p := by omega
  rw [hL, hR, hS, hP]
  exact (swap_remove_perm (fun j => Pattern (j : Int)) m p hpm).append_right _

theorem chain_pattern_inheritance_witness :
    (chainPattern store7 7 (ofList [5, 7, 9] 0, 3)).2 = 3 ∧
    List.Perm
      (patList (chainPattern store7 7 (ofList [5, 7, 9] 0, 3)).1
        (chainPattern store7 7 (ofList [5, 7, 9] 0, 3)).2)
      [5, 9, 11] :=
  chain_pattern_inheritance store7 7 (ofList [5, 7, 9] 0) 3
    (by decide) (by decide) (by decide) (by decide) (by decide)

/-! ## Independence of the initial pattern workspace -/

/-- The pattern step keeps two workspaces in agreement: when they have the same
`deg ≥ 0` and the same entries `0 .. deg-1`, and the removal position of column
`k`, if any, is within the inherited pattern, the same holds after the step. -/
theorem chainPattern_agree {K : Type} (Numeric : NumericType K) (k : Int)
    (s t : (Int → Int) × Int)
    (hdeg : s.2 = t.2) (hnn : 0 ≤ s.2) (hag : ∀ j, 0 ≤ j → j < s.2 → s.1 j = t.1 j)
    (hpos : Numeric.Lpos k ≠ EMPTY →
      0 ≤ Numeric.Lpos k ∧ Numeric.Lpos k < (if Numeric.Lip k < 0 then 0 else s.2)) :
    (chainPattern Numeric k s).2 = (chainPattern Numeric k t).2 ∧
    0 ≤ (chainPattern Numeric k s).2 ∧
    ∀ j, 0 ≤ j → j < (chainPattern Numeric k s).2 →
      (chainPattern Numeric k s).1 j = (chainPattern Numeric k t).1 j := by
  rw [chainPattern_eq, chainPattern_eq, ← hdeg]
  by_cases hne : Numeric.Lpos k ≠ EMPTY
  · obtain ⟨hp0, hp1⟩ := hpos hne
    by_cases hl : Numeric.Lip k < 0
    · simp only [hl, if_true] at hp1
      omega
    · simp only [hl, if_false] at hp1
      simp only [hne, hl, ne_eq, not_false_eq_true, if_true, if_false, true_and]
      refine ⟨by omega, ?_⟩
      intro j hj0 hj1
      by_cases hin : s.2 - 1 ≤ j ∧ j < s.2 - 1 + ((Numeric.Lilen k).toNat : Int)
      · simp only [hin, and_self, if_true]
      · simp only [hin, if_false, setAt]
        by_cases hjp : j = Numeric.Lpos k
        · simp only [hjp, if_true]
          exact hag _ (by omega) (by omega)
        · simp only [hjp, if_false]
          exact hag j hj0 (by omega)
  · simp only [hne, if_false, true_and]
    by_cases hl : Numeric.Lip k < 0
    · simp only [hl, if_true]
      refine ⟨by omega, ?_⟩
      intro j hj0 hj1
      have hin : 0 ≤ j ∧ j < 0 + ((Numeric.Lilen k).toNat : Int) := ⟨hj0, hj1⟩
      simp only [hin, and_self, if_true]
    · simp only [hl, if_false]
      refine ⟨by omega, ?_⟩
      intro j hj0 hj1
      by_cases hin : s.2 ≤ j ∧ j < s.2 + ((Numeric.Lilen k).toNat : Int)
      · simp only [hin, and_self, if_true]
      · simp only [hin, if_false]
        exact hag j hj0 (by omega)

/-- The chain patterns decoded from two initial workspaces agree, as long as
every removal position met so far was within the inherited pattern. -/
theorem chainPattern_loop_agree {K : Type} (Numeric : NumericType K)
    (Pattern0 Pattern2 : Int → Int) (n : Nat)
    (hpos : ∀ k, Numeric.n1 ≤ k → k < Numeric.n1 + (n : Int) → Numeric.Lpos k ≠ EMPTY →
      0 ≤ Numeric.Lpos k ∧ Numeric.Lpos k < removalDeg Numeric Pattern0 k) :
    (forLoop Numeric.n1 (Numeric.n1 + (n : Int)) (chainPattern Numeric) (Pattern0, 0)).2
      = (forLoop Numeric.n1 (Numeric.n1 + (n : Int)) (chainPattern Numeric) (Pattern2, 0)).2 ∧
    0 ≤ (forLoop Numeric.n1 (Numeric.n1 + (n : Int)) (chainPattern Numeric) (Pattern0, 0)).2 ∧
    ∀ j, 0 ≤ j →
      j < (forLoop Numeric.n1 (Numeric.n1 + (n : Int)) (chainPattern Numeric) (Pattern0, 0)).2 →
      (forLoop Numeric.n1 (Numeric.n1 + (n : Int)) (chainPattern Numeric) (Pattern0, 0)).1 j
        = (forLoop Numeric.n1 (Numeric.n1 + (n : Int)) (chainPattern Numeric) (Pattern2, 0)).1 j := by
  induction n with
  | zero =>
    simp only [Nat.cast_zero, add_zero, forLoop_empty _ _ _ _ le_rfl]
    exact ⟨trivial, le_rfl, fun j h0 h1 => absurd h1 (by omega)⟩
  | succ n ih =>
    have e : Numeric.n1 + ((n + 1 : Nat) : Int) = (Numeric.n1 + (n : Int)) + 1 := by
      push_cast; ring
    obtain ⟨i1, i2, i3⟩ := ih (fun k h1 h2 => hpos k h1 (by omega))
    rw [e, forLoop_succ _ _ _ _ (by omega), forLoop_succ _ _ _ _ (by omega)]
    apply chainPattern_agree Numeric _ _ _ i1 i2 i3
    intro hne
    have := hpos (Numeric.n1 + (n : Int)) (by omega) (by omega) hne
    simpa only [removalDeg] using this

/-- The columns decoded from two initial workspaces are the same when every
removal position is within the inherited pattern. -/
theorem Lcolumn_scratch_independent {K : Type} (UNITS_Int : Int → Int)
    (Numeric : NumericType K) (Pattern0 Pattern2 : Int → Int)
    (hpos : ∀ k, Numeric.n1 ≤ k → k < Numeric.npiv → Numeric.Lpos k ≠ EMPTY →
      0 ≤ Numeric.Lpos k ∧ Numeric.Lpos k < removalDeg Numeric Pattern0 k) (k : Int) :
    Lcolumn UNITS_Int Numeric Pattern0 k = Lcolumn UNITS_Int Numeric Pattern2 k := by
  unfold Lcolumn
  split
  · rfl
  · split
    · rename_i hk
      obtain ⟨n, hn⟩ : ∃ n : Nat, k + 1 = Numeric.n1 + (n : Int) :=
        ⟨(k + 1 - Numeric.n1).toNat, by omega⟩
      obtain ⟨i1, _, i3⟩ := chainPattern_loop_agree Numeric Pattern0 Pattern2 n
        (fun j h1 h2 => hpos j h1 (by omega))
      rw [← hn] at i1 i3
      simp only
      rw [← i1]
      apply List.map_congr_left
      intro j hj
      have hj2 := List.mem_range.1 hj
      rw [i3 (j : Int) (by omega) (by omega)]
    · rfl

/-- C20: for a square store in which every chain column `n1 ≤ k < npiv` with a
removal position (`Lpos [k] ≠ EMPTY`) has `0 ≤ Lpos [k] < deg` when the removal
is reached, the final `X` and the returned count of `UMF_lsolve` are the same
for any two initial contents of the pattern workspace. -/
theorem lsolve_scratch_independent {K : Type} [CommRing K] [DecidableEq K]
    (UNITS_Int : Int → Int) (MULTSUB_FLOPS : Int) (Numeric : NumericType K)
    (X : Int → K) (Pattern0 Pattern2 : Int → Int)
    (hsq : Numeric.n_row = Numeric.n_col)
    (hpos : ∀ k, Numeric.n1 ≤ k → k < Numeric.npiv → Numeric.Lpos k ≠ EMPTY →
      0 ≤ Numeric.Lpos k ∧ Numeric.Lpos k < removalDeg Numeric Pattern0 k) :
    (UMF_lsolve UNITS_Int MULTSUB_FLOPS Numeric X Pattern0).X
      = (UMF_lsolve UNITS_Int MULTSUB_FLOPS Numeric X Pattern2).X ∧
    (UMF_lsolve UNITS_Int MULTSUB_FLOPS Numeric X Pattern0).flops
      = (UMF_lsolve UNITS_Int MULTSUB_FLOPS Numeric X Pattern2).flops := by
  have hsq2 : ¬ Numeric.n_row ≠ Numeric.n_col := fun h => h hsq
  have hc : (fun k i => colCoef (Lcolumn UNITS_Int Numeric Pattern0 k) i)
      = (fun k i => colCoef (Lcolumn UNITS_Int Numeric Pattern2 k) i) := by
    funext k i
    rw [Lcolumn_scratch_independent UNITS_Int Numeric Pattern0 Pattern2 hpos k]
  simp only [UMF_lsolve, hsq2, if_false, and_true]
  rcases le_or_lt Numeric.n1 Numeric.npiv with hle | hlt
  · rw [chainLoop_eq UNITS_Int Numeric Pattern0 _ hle,
      chainLoop_eq UNITS_Int Numeric Pattern2 _ hle, hc]
  · rw [forLoop_empty _ _ _ _ (le_of_lt hlt), forLoop_empty _ _ _ _ (le_of_lt hlt)]

theorem lsolve_scratch_independent_witness :
    (UMF_lsolve units4 2 store3 (ofList [1, 2, 3] 0) (fun _ => 0)).X
      = (UMF_lsolve units4 2 store3 (ofList [1, 2, 3] 0) (fun _ => 7)).X ∧
    (UMF_lsolve units4 2 store3 (ofList [1, 2, 3] 0) (fun _ => 0)).flops
      = (UMF_lsolve units4 2 store3 (ofList [1, 2, 3] 0) (fun _ => 7)).flops := by
  have hpos : ∀ k, store3.n1 ≤ k → k < store3.npiv → store3.Lpos k ≠ EMPTY →
      0 ≤ store3.Lpos k ∧ store3.Lpos k < removalDeg store3 (fun _ => 0) k := by
    intro k h1 h2
    have h1' : 1 ≤ k := h1
    have h2' : k < 3 := h2
    interval_cases k
    · intro h; exact absurd rfl h
    · intro _; decide
  exact lsolve_scratch_independent units4 2 store3 (ofList [1, 2, 3] 0) (fun _ => 0)
    (fun _ => 7) rfl hpos

/-! ## Theorems about `UMFPACK_save_numeric` -/

/-- C12: for a `Numeric` object that fails `UMF_valid_numeric`, and any file
name, `UMFPACK_save_numeric` returns `UMFPACK_ERROR_invalid_Numeric_object` and
makes no call on any file: nothing is opened, written or closed. -/
theorem save_numeric_invalid {K : Type} (UMF_valid_numeric : NumericType K → Bool)
    (UMFPACK_SCALE_NONE : Int) (env : FileEnv) (Numeric : NumericType K)
    (user_filename : Option String) (h : UMF_valid_numeric Numeric = false) :
    (UMFPACK_save_numeric UMF_valid_numeric UMFPACK_SCALE_NONE env Numeric user_filename).status
      = UMFPACK_ERROR_invalid_Numeric_object ∧
    (UMFPACK_save_numeric UMF_valid_numeric UMFPACK_SCALE_NONE env Numeric user_filename).ops
      = [] := by
  simp [UMFPACK_save_numeric, h]

theorem save_numeric_invalid_witness :
    (UMFPACK_save_numeric validRows 0 fileAllOk (arena 100 1 98 2 3) (some "lu.umf")).status
      = UMFPACK_ERROR_invalid_Numeric_object ∧
    (UMFPACK_save_numeric validRows 0 fileAllOk (arena 100 1 98 2 3) (some "lu.umf")).ops
      = [] :=
  save_numeric_invalid validRows 0 fileAllOk (arena 100 1 98 2 3) (some "lu.umf") rfl

/-- C14: for a valid `Numeric` object, when the file opens and every `fwrite`
completes, `UMFPACK_save_numeric` returns `UMFPACK_OK` and the records written
are, in this order: the header (1 item), `D` (`min (n_row, n_col) + 1`), `Rperm`
(`n_row + 1`), `Cperm` (`n_col + 1`), `Lpos`, `Lilen`, `Lip`, `Upos`, `Uilen`,
`Uip` (`npiv + 1` each), `Rs` (`n_row`) exactly when
`scale ≠ UMFPACK_SCALE_NONE`, `Upattern` (`ulen + 1`) exactly when `ulen > 0`,
and `Memory` (`size` units). -/
theorem save_numeric_layout {K : Type} (UMF_valid_numeric : NumericType K → Bool)
    (UMFPACK_SCALE_NONE : Int) (env : FileEnv) (Numeric : NumericType K)
    (user_filename : Option String) (hv : UMF_valid_numeric Numeric = true)
    (hopen : env.fopen_ok (saveFilename user_filename) = true)
    (hw : ∀ object type n, env.fwrite_ok object type n = true) :
    (UMFPACK_save_numeric UMF_valid_numeric UMFPACK_SCALE_NONE env Numeric user_filename).status
      = UMFPACK_OK ∧
    writtenRecords
      (UMFPACK_save_numeric UMF_valid_numeric UMFPACK_SCALE_NONE env Numeric user_filename).ops
      = [(SavedObject.Numeric, CType.NumericType, 1),
         (SavedObject.D, CType.Entry, min Numeric.n_row Numeric.n_col + 1),
         (SavedObject.Rperm, CType.Int, Numeric.n_row + 1),
         (SavedObject.Cperm, CType.Int, Numeric.n_col + 1),
         (SavedObject.Lpos, CType.Int, Numeric.npiv + 1),
         (SavedObject.Lilen, CType.Int, Numeric.npiv + 1),
         (SavedObject.Lip, CType.Int, Numeric.npiv + 1),
         (SavedObject.Upos, CType.Int, Numeric.npiv + 1),
         (SavedObject.Uilen, CType.Int, Numeric.npiv + 1),
         (SavedObject.Uip, CType.Int, Numeric.npiv + 1)]
        ++ (if Numeric.scale ≠ UMFPACK_SCALE_NONE
              then [(SavedObject.Rs, CType.double, Numeric.n_row)] else [])
        ++ (if Numeric.ulen > 0
              then [(SavedObject.Upattern, CType.Int, Numeric.ulen + 1)] else [])
        ++ [(SavedObject.Memory, CType.Unit, Numeric.size)] := by
  by_cases hs : Numeric.scale ≠ UMFPACK_SCALE_NONE <;> by_cases hu : Numeric.ulen > 0 <;>
    simp [UMFPACK_save_numeric, hv, hopen, WRITE, hw, hs, hu, writtenRecords, bind,
      Except.bind, pure, Except.pure]

theorem save_numeric_layout_witness :
    (UMFPACK_save_numeric validRows 0 fileAllOk { store3 with scale := 1, ulen := 2 }
      none).status = UMFPACK_OK ∧
    writtenRecords
      (UMFPACK_save_numeric validRows 0 fileAllOk { store3 with scale := 1, ulen := 2 }
        none).ops
      = [(SavedObject.Numeric, CType.NumericType, 1),
         (SavedObject.D, CType.Entry, 4),
         (SavedObject.Rperm, CType.Int, 4),
         (SavedObject.Cperm, CType.Int, 4),
         (SavedObject.Lpos, CType.Int, 4),
         (SavedObject.Lilen, CType.Int, 4),
         (SavedObject.Lip, CType.Int, 4),
         (SavedObject.Upos, CType.Int, 4),
         (SavedObject.Uilen, CType.Int, 4),
         (SavedObject.Uip, CType.Int, 4),
         (SavedObject.Rs, CType.double, 3),
         (SavedObject.Upattern, CType.Int, 3),
         (SavedObject.Memory, CType.Unit, 8)] :=
  save_numeric_layout validRows 0 fileAllOk { store3 with scale := 1, ulen := 2 } none
    (by decide) rfl (fun _ _ _ => rfl)

/-! ## Theorems about `UMFPACK_triplet_to_col` -/

/-- C13: `UMFPACK_triplet_to_col` returns `UMFPACK_ERROR_argument_missing` when
any of `Ai`, `Ap`, `Ti`, `Tj` is null; otherwise `UMFPACK_ERROR_n_nonpositive`
when `n_row ≤ 0` or `n_col ≤ 0`; otherwise `UMFPACK_ERROR_invalid_matrix` when
`nz < 0`.  In each case no `UMF_malloc` call is made, the allocator state is
untouched and the arrays `Ap`, `Ai`, `Ax` and `Map` are as they were. -/
theorem triplet_argument_checks {W V : Type} (env : TripletEnv W V) (n_row n_col nz : Int)
    (Ti Tj : Option (Int → Int)) (Tx : Option (Int → V)) (A : TripletArrays V) (w : W) :
    ((A.Ai = none ∨ A.Ap = none ∨ Ti = none ∨ Tj = none) →
      (UMFPACK_triplet_to_col env n_row n_col nz Ti Tj Tx A w).status
        = UMFPACK_ERROR_argument_missing ∧
      (UMFPACK_triplet_to_col env n_row n_col nz Ti Tj Tx A w).mallocs = [] ∧
      (UMFPACK_triplet_to_col env n_row n_col nz Ti Tj Tx A w).world = w ∧
      (UMFPACK_triplet_to_col env n_row n_col nz Ti Tj Tx A w).arrays = A) ∧
    (A.Ai ≠ none → A.Ap ≠ none → Ti ≠ none → Tj ≠ none → (n_row ≤ 0 ∨ n_col ≤ 0) →
      (UMFPACK_triplet_to_col env n_row n_col nz Ti Tj Tx A w).status
        = UMFPACK_ERROR_n_nonpositive ∧
      (UMFPACK_triplet_to_col env n_row n_col nz Ti Tj Tx A w).mallocs = [] ∧
      (UMFPACK_triplet_to_col env n_row n_col nz Ti Tj Tx A w).world = w ∧
      (UMFPACK_triplet_to_col env n_row n_col nz Ti Tj Tx A w).arrays = A) ∧
    (A.Ai ≠ none → A.Ap ≠ none → Ti ≠ none → Tj ≠ none → 0 < n_row → 0 < n_col → nz < 0 →
      (UMFPACK_triplet_to_col env n_row n_col nz Ti Tj Tx A w).status
        = UMFPACK_ERROR_invalid_matrix ∧
      (UMFPACK_triplet_to_col env n_row n_col nz Ti Tj Tx A w).mallocs = [] ∧
      (UMFPACK_triplet_to_col env n_row n_col nz Ti Tj Tx A w).world = w ∧
      (UMFPACK_triplet_to_col env n_row n_col nz Ti Tj Tx A w).arrays = A) := by
  obtain ⟨Ap, Ai, Ax, Map⟩ := A
  refine ⟨?_, ?_, ?_⟩
  · intro h
    cases Ai <;> cases Ap <;> cases Ti <;> cases Tj <;>
      simp [UMFPACK_triplet_to_col] at h ⊢
  · intro h1 h2 h3 h4 h5
    cases Ai <;> cases Ap <;> cases Ti <;> cases Tj <;>
      simp [UMFPACK_triplet_to_col, h5] at h1 h2 h3 h4 ⊢
  · intro h1 h2 h3 h4 h5 h6 h7
    have h8 : ¬ (n_row ≤ 0 ∨ n_col ≤ 0) := by omega
    cases Ai <;> cases Ap <;> cases Ti <;> cases Tj <;>
      simp [UMFPACK_triplet_to_col, h7, h8] at h1 h2 h3 h4 ⊢

theorem triplet_argument_checks_witness :
    ((UMFPACK_triplet_to_col tripletEnvOk 2 2 1 none (some (ofList [0] 0)) none arrays2 5).status
        = UMFPACK_ERROR_argument_missing ∧
      (UMFPACK_triplet_to_col tripletEnvOk 2 2 1 none (some (ofList [0] 0)) none arrays2 5).mallocs
        = [] ∧
      (UMFPACK_triplet_to_col tripletEnvOk 2 2 1 none (some (ofList [0] 0)) none arrays2 5).world
        = 5 ∧
      (UMFPACK_triplet_to_col tripletEnvOk 2 2 1 none (some (ofList [0] 0)) none arrays2 5).arrays
        = arrays2) ∧
    ((UMFPACK_triplet_to_col tripletEnvOk 0 2 1 (some (ofList [0] 0)) (some (ofList [0] 0))
        none arrays2 5).status = UMFPACK_ERROR_n_nonpositive ∧
      (UMFPACK_triplet_to_col tripletEnvOk 0 2 1 (some (ofList [0] 0)) (some (ofList [0] 0))
        none arrays2 5).mallocs = [] ∧
      (UMFPACK_triplet_to_col tripletEnvOk 0 2 1 (some (ofList [0] 0)) (some (ofList [0] 0))
        none arrays2 5).world = 5 ∧
      (UMFPACK_triplet_to_col tripletEnvOk 0 2 1 (some (ofList [0] 0)) (some (ofList [0] 0))
        none arrays2 5).arrays = arrays2) ∧
    ((UMFPACK_triplet_to_col tripletEnvOk 2 2 (-1) (some (ofList [0] 0)) (some (ofList [0] 0))
        none arrays2 5).status = UMFPACK_ERROR_invalid_matrix ∧
      (UMFPACK_triplet_to_col tripletEnvOk 2 2 (-1) (some (ofList [0] 0)) (some (ofList [0] 0))
        none arrays2 5).mallocs = [] ∧
      (UMFPACK_triplet_to_col tripletEnvOk 2 2 (-1) (some (ofList [0] 0)) (some (ofList [0] 0))
        none arrays2 5).world = 5 ∧
      (UMFPACK_triplet_to_col tripletEnvOk 2 2 (-1) (some (ofList [0] 0)) (some (ofList [0] 0))
        none arrays2 5).arrays = arrays2) :=
  ⟨(triplet_argument_checks tripletEnvOk 2 2 1 none (some (ofList [0] 0)) none arrays2 5).1
      (Or.inr (Or.inr (Or.inl rfl))),
    (triplet_argument_checks tripletEnvOk 0 2 1 (some (ofList [0] 0)) (some (ofList [0] 0))
      none arrays2 5).2.1 (by simp [arrays2]) (by simp [arrays2]) (by simp) (by simp)
      (Or.inl (by decide)),
    (triplet_argument_checks tripletEnvOk 2 2 (-1) (some (ofList [0] 0)) (some (ofList [0] 0))
      none arrays2 5).2.2 (by simp [arrays2]) (by simp [arrays2]) (by simp) (by simp)
      (by decide) (by decide) (by decide)⟩

end UMFPACK
